import Mathlib

/-!
Shallow embedding of the core data structures of the `scaffolding` crate
(`ArenaVec`, `TypeMap`, `Uniq`, and the `World` message bus), translated from
`src/scaffolding/src/datatypes/arenavec.rs`, `typemap.rs`, `uniq.rs` and
`src/scaffolding/src/world.rs`, together with proofs and refutations of the
specification's testable properties.

Modelling conventions:
* machine integers are `Nat`/`Int`; `usize` arithmetic that can panic
  (remainder by zero) or overflow is made explicit;
* raw memory is a `List` of slots plus an abstract integer base address;
  pointers are base-plus-offset integers, so pointer rebasing arithmetic from
  the source is reproduced literally;
* Rust panics, unwraps of `None`, reads/writes out of bounds and potential
  infinite loops surface as `Except.error`; fallible APIs that return
  `Result<T, Error>` keep their own error type;
* OS virtual-memory calls (`reserve`/`commit`/`decommit`/`dereserve`) do not
  move memory, so they are tracked only through the fields they change and
  through explicit event lists where a claim is about them.
-/

namespace Scaffolding

/-- `utils::align`: round `value` up to a multiple of `to`.  The source uses a
two's-complement bit trick valid for power-of-two alignments; this is the
arithmetic form of the same function (page sizes and alignments are powers of
two). -/
def osAlign (value al : Nat) : Nat :=
  value + (al - value % al) % al

/-- Destructor / OS calls emitted while tearing a container down.  Used to
state which destructors run (or do not run) during `clear` and `Drop`. -/
inductive DropEvent where
  | decommit (base : Nat) (bytes : Nat)
  | dereserve (base : Nat) (bytes : Nat)
  | elemDestructor (ptr : Int)
  deriving Repr, DecidableEq

/-- `arenavec::Error`. -/
inductive AvError where
  | outOfMemoryAddresses
  | indexOutOfBounds
  deriving Repr, DecidableEq

/-- `ArenaVec<T>`: `reservedMemory` and `capacity` are byte counts, `len` an
element count, `buffer` the abstract base address of the reservation.  `data`
models the written memory slots (it can be longer than `len`: bytes past `len`
stay in memory, as in the source). -/
structure ArenaVec (α : Type) where
  reservedMemory : Nat
  capacity : Nat
  len : Nat
  buffer : Nat
  data : List α
  deriving Repr, DecidableEq

namespace ArenaVec

/-- `ArenaVec::DEFAULT_RESERVED_MEMORY` (10 GiB). -/
def DEFAULT_RESERVED_MEMORY : Nat := 10 * (1024 * 1024 * 1024)

/-- Write one element slot; extends the memory image when writing one past the
end (the only out-of-range index the in-bounds operations ever produce). -/
def writeSlot (l : List α) (i : Nat) (v : α) : List α :=
  if i < l.length then l.set i v else l ++ [v]

/-- `ArenaVec::with_reserved_memory_and_capacity`.  `base` is the address the
OS hands back for the reservation. -/
def withReservedMemoryAndCapacity (ps : Nat) (reserved cap base : Nat) :
    Except String (ArenaVec α) :=
  if reserved < cap then
    .error "Attempted to create an ArenaVec with less reserved memory than allocated capacity."
  else
    .ok { reservedMemory := osAlign reserved ps
          capacity := cap
          len := 0
          buffer := base
          data := [] }

/-- `ArenaVec::with_capacity`. -/
def withCapacity (ps : Nat) (cap base : Nat) : Except String (ArenaVec α) :=
  if cap > DEFAULT_RESERVED_MEMORY then
    withReservedMemoryAndCapacity ps cap cap base
  else
    withReservedMemoryAndCapacity ps DEFAULT_RESERVED_MEMORY cap base

/-- `ArenaVec::with_reserved_memory`. -/
def withReservedMemory (ps : Nat) (reserved base : Nat) : Except String (ArenaVec α) :=
  withReservedMemoryAndCapacity ps reserved 0 base

/-- The `growth_amount` local of `ensure_capacity`/`try_ensure_capacity`:
double the used byte size (the element size when nothing is used yet, the
remaining reserved bytes when doubling would reach the reservation),
page-aligned. -/
def growthAmount (es ps : Nat) (s : ArenaVec α) : Nat :=
  osAlign
    (if es * s.len = 0 then es
     else if es * s.len * 2 < s.reservedMemory then es * s.len
     else s.reservedMemory - es * s.len) ps

/-- `ArenaVec::ensure_capacity` (convenience API; the panic is an error).
`es` is `size_of::<T>()`, `ps` the OS page size. -/
def ensureCapacity (es ps : Nat) (s : ArenaVec α) (capacity : Nat) :
    Except String (ArenaVec α) :=
  if capacity > s.capacity then
    if es * s.len + growthAmount es ps s > s.reservedMemory then
      .error "ArenaVec needed to grow, but ran out of reserved memory"
    else
      .ok { s with capacity := s.capacity + growthAmount es ps s }
  else
    .ok s

/-- `ArenaVec::try_ensure_capacity` (fallible API). -/
def tryEnsureCapacity (es ps : Nat) (s : ArenaVec α) (capacity : Nat) :
    Except AvError (ArenaVec α) :=
  if capacity > s.capacity then
    if es * s.len + growthAmount es ps s > s.reservedMemory then
      .error AvError.outOfMemoryAddresses
    else
      .ok { s with capacity := s.capacity + growthAmount es ps s }
  else
    .ok s

/-- `ArenaVec::push`. -/
def push (es ps : Nat) (s : ArenaVec α) (v : α) : Except String (ArenaVec α) := do
  let s ← ensureCapacity es ps s (s.len + 1)
  .ok { s with data := writeSlot s.data s.len v, len := s.len + 1 }

/-- `ArenaVec::try_push`. -/
def tryPush (es ps : Nat) (s : ArenaVec α) (v : α) : Except AvError (ArenaVec α) := do
  let s ← tryEnsureCapacity es ps s (s.len + 1)
  .ok { s with data := writeSlot s.data s.len v, len := s.len + 1 }

/-- `ArenaVec::reserve`. -/
def reserve (es ps : Nat) (s : ArenaVec α) (additional : Nat) :
    Except String (ArenaVec α) :=
  ensureCapacity es ps s (s.len + additional)

/-- `ArenaVec::try_reserve`. -/
def tryReserve (es ps : Nat) (s : ArenaVec α) (additional : Nat) :
    Except AvError (ArenaVec α) :=
  tryEnsureCapacity es ps s (s.len + additional)

/-- `ArenaVec::get`: the returned reference is the address
`buffer + idx * size_of::<T>()`, or `None` past the length. -/
def get (es : Nat) (s : ArenaVec α) (idx : Nat) : Option Nat :=
  if idx < s.len then some (s.buffer + idx * es) else none

/-- `ArenaVec::get_mut` (same address computation as `get`). -/
def getMut (es : Nat) (s : ArenaVec α) (idx : Nat) : Option Nat :=
  if idx < s.len then some (s.buffer + idx * es) else none

/-- Memory image after `ArenaVec::remove`'s overlapping copy: slots
`[idx, len-1)` take their successor's value; the slot `len-1` and everything
past it keep their old bytes. -/
def removeShift (l : List α) (idx len : Nat) : List α :=
  l.take idx ++ (l.drop (idx + 1)).take (len - 1 - idx) ++ l.drop (len - 1)

/-- `ArenaVec::remove`. -/
def remove [Inhabited α] (s : ArenaVec α) (idx : Nat) : Option α × ArenaVec α :=
  if idx < s.len then
    (some (s.data.getD idx default),
     { s with data := removeShift s.data idx s.len, len := s.len - 1 })
  else
    (none, s)

/-- Memory image after `ArenaVec::insert`'s copy: `[idx, len)` moves up one
slot and `v` is written at `idx`. -/
def insertShift (l : List α) (idx len : Nat) (v : α) : List α :=
  l.take idx ++ v :: (l.drop idx).take (len - idx) ++ l.drop (len + 1)

/-- `ArenaVec::insert`.  Note the source does not increment `len` in the
shifting branch; the model reproduces that. -/
def insert (es ps : Nat) (s : ArenaVec α) (idx : Nat) (v : α) :
    Except String (ArenaVec α) :=
  if idx = s.len then push es ps s v
  else if idx > s.len then .error "Index out of bounds"
  else do
    let s ← ensureCapacity es ps s (s.len + 1)
    .ok { s with data := insertShift s.data idx s.len v }

/-- `ArenaVec::try_insert`. -/
def tryInsert (es ps : Nat) (s : ArenaVec α) (idx : Nat) (v : α) :
    Except AvError (ArenaVec α) :=
  if idx = s.len then tryPush es ps s v
  else if idx > s.len then .error AvError.indexOutOfBounds
  else do
    let s ← tryEnsureCapacity es ps s (s.len + 1)
    .ok { s with data := insertShift s.data idx s.len v }

/-- `ArenaVec::pop`.  The source decrements `len` and then reads the slot at
the *old* `len` (one past the last element); reading a slot that was never
written is undefined behaviour, surfaced as an error. -/
def pop (s : ArenaVec α) : Except String (Option α × ArenaVec α) :=
  if s.len = 0 then .ok (none, s)
  else
    match s.data.get? s.len with
    | some v => .ok (some v, { s with len := s.len - 1 })
    | none => .error "UB: pop read one past the committed data"

/-- `ArenaVec::swap_remove`. -/
def swapRemove [Inhabited α] (s : ArenaVec α) (idx : Nat) :
    Except String (α × ArenaVec α) :=
  if idx ≥ s.len then .error "Index out of bounds"
  else if idx = s.len - 1 then
    match pop s with
    | .ok (some v, s) => .ok (v, s)
    | .ok (none, _) => .error "unwrap of None"
    | .error e => .error e
  else
    .ok (s.data.getD idx default,
         { s with data := s.data.set idx (s.data.getD (s.len - 1) default)
                  len := s.len - 1 })

/-- `ArenaVec::split_off`.  `newBase` is the base address the fresh vector's
reservation gets.  The source copies the tail into the new vector's buffer but
never sets its `len`, so the returned vector reports length 0; the model keeps
that. -/
def splitOff (ps : Nat) (s : ArenaVec α) (idx : Nat) (newBase : Nat) :
    Except String (ArenaVec α × ArenaVec α) :=
  if idx > s.len then .error "Index out of bounds"
  else if idx = s.len then do
    let v ← withReservedMemory (α := α) ps DEFAULT_RESERVED_MEMORY newBase
    .ok (s, v)
  else do
    let v ← withCapacity (α := α) ps (s.len - idx) newBase
    .ok ({ s with len := idx },
         { v with data := (s.data.drop idx).take (s.len - idx) })

/-- `ArenaVec::try_split_off`. -/
def trySplitOff (ps : Nat) (s : ArenaVec α) (idx : Nat) (newBase : Nat) :
    Except AvError (ArenaVec α × ArenaVec α) :=
  if idx > s.len then .error AvError.indexOutOfBounds
  else
    match withCapacity (α := α) ps (s.len - idx) newBase with
    | .error _ => .error AvError.outOfMemoryAddresses
    | .ok v =>
      if idx = s.len then .ok (s, v)
      else
        .ok ({ s with len := idx },
             { v with data := (s.data.drop idx).take (s.len - idx) })

/-- `ArenaVec::clear`: only the length is reset. -/
def clear (s : ArenaVec α) : ArenaVec α :=
  { s with len := 0 }

/-- `ArenaVec::truncate`. -/
def truncate (s : ArenaVec α) (newLen : Nat) : ArenaVec α :=
  if newLen > s.len then s else { s with len := newLen }

/-- `ArenaVec::shrink_to`. -/
def shrinkTo (s : ArenaVec α) (minCapacity : Nat) : ArenaVec α :=
  { s with capacity := min s.capacity (max minCapacity s.len) }

/-- `ArenaVec::shrink_to_fit`. -/
def shrinkToFit (s : ArenaVec α) : ArenaVec α :=
  shrinkTo s s.len

/-- `impl Drop for ArenaVec`: decommit the committed bytes, release the
reservation — and nothing else (no element destructor runs). -/
def dropEvents (s : ArenaVec α) : List DropEvent :=
  [DropEvent.decommit s.buffer s.capacity,
   DropEvent.dereserve s.buffer s.reservedMemory]

end ArenaVec

/-- `PubTypeId`: the raw `(u64, u64)` value of a `TypeId`. -/
abbrev PubTypeId := Nat × Nat

/-- `TypeMapEntry` (the `drop` function pointer is represented by the entry's
address when destructor events are emitted). -/
structure TypeMapEntry where
  type_id : PubTypeId
  ptr : Int
  collision_slot : Option Nat
  deriving Repr, DecidableEq

/-- `TypeMap`: a bucket array plus a private byte arena.  `storageBase` is the
abstract address of `storage.as_ptr()`; entry pointers are absolute addresses
into it, exactly as in the source. -/
structure TypeMap where
  entries : List (Option TypeMapEntry)
  storage : List Nat
  storageBase : Int
  used_storage : Nat
  num_entries : Nat
  deriving Repr, DecidableEq

namespace TypeMap

/-- `TypeMap::new` (`base` is the address of the freshly allocated storage). -/
def new (numEntries storageCapacity : Nat) (base : Int) : TypeMap :=
  { entries := List.replicate numEntries none
    storage := List.replicate storageCapacity 0
    storageBase := base
    used_storage := 0
    num_entries := 0 }

/-- `TypeMap::available_entries`. -/
def available_entries (tm : TypeMap) : Nat := tm.entries.length

/-- `TypeMap::storage_capacity`. -/
def storage_capacity (tm : TypeMap) : Nat := tm.storage.length

/-- `TypeMap::unused_storage`. -/
def unused_storage (tm : TypeMap) : Nat := tm.storage.length - tm.used_storage

/-- `TypeMap::is_full`. -/
def is_full (tm : TypeMap) : Bool :=
  tm.num_entries = tm.entries.length || tm.used_storage = tm.storage.length

/-- The bucket index `type_id.val.0 as usize % self.entries.len()` (callers
must have checked `entries.len() ≠ 0`, otherwise the source panics). -/
def bucketIdx (tm : TypeMap) (tid : PubTypeId) : Nat :=
  tid.1 % tm.entries.length

/-- The collision-chain walk of `TypeMap::_get`, entered when the direct
bucket holds a different type.  Follows `collision_slot` links; `fuel` bounds
the source's unbounded loop. -/
def getLoop (tm : TypeMap) (tid : PubTypeId) : Nat → TypeMapEntry → Except String (Option Int)
  | 0, _ => .error "infinite loop in _get"
  | fuel + 1, node =>
    match node.collision_slot with
    | none => .ok none
    | some idx =>
      match tm.entries.get? idx with
      | none => .error "UB: collision slot out of bounds"
      | some none => .error "unwrap of None in _get"
      | some (some node') =>
        if node'.type_id = tid then .ok (some node'.ptr)
        else getLoop tm tid fuel node'

/-- `TypeMap::_get`.  A zero-bucket map panics (`% 0`). -/
def _get (tm : TypeMap) (tid : PubTypeId) : Except String (Option Int) :=
  if tm.entries.length = 0 then
    .error "attempt to calculate the remainder with a divisor of zero"
  else
    match tm.entries.getD (tm.bucketIdx tid) none with
    | none => .ok none
    | some entry =>
      if entry.type_id = tid then .ok (some entry.ptr)
      else getLoop tm tid (tm.entries.length + 1) entry

/-- `TypeMap::contains` (panics on a zero-bucket map like `_get`). -/
def contains (tm : TypeMap) (tid : PubTypeId) : Except String Bool :=
  if tm.entries.length = 0 then
    .error "attempt to calculate the remainder with a divisor of zero"
  else
    .ok (tm.entries.getD (tm.bucketIdx tid) none).isSome

/-- `TypeMap::align::<T>`. -/
def alignUsed (tm : TypeMap) (algn : Nat) : TypeMap :=
  let u := tm.used_storage + algn - 1
  { tm with used_storage := u - u % algn }

/-- Write `bytes` into the arena starting at byte offset `off`. -/
def writeBytes (storage : List Nat) (off : Nat) (bytes : List Nat) : List Nat :=
  storage.take off ++ bytes ++ storage.drop (off + bytes.length)

/-- Walk from an occupied slot to the end of its collision chain and return
that slot's index (the loop in `insert`/`copy_entry` that finds the last
linked-list node). -/
def chainLastLoop (entries : List (Option TypeMapEntry)) : Nat → Nat → Except String Nat
  | 0, _ => .error "infinite loop in collision chain walk"
  | fuel + 1, i =>
    match entries.get? i with
    | none => .error "UB: chain index out of bounds"
    | some none => .error "unwrap of None in chain walk"
    | some (some e) =>
      match e.collision_slot with
      | none => .ok i
      | some j => chainLastLoop entries fuel j

/-- Set the `collision_slot` field of the (occupied) slot `i` — the write
through the `&mut` reference produced by the chain walk. -/
def setCollision (entries : List (Option TypeMapEntry)) (i : Nat) (c : Option Nat) :
    List (Option TypeMapEntry) :=
  match entries.get? i with
  | some (some e) => entries.set i (some { e with collision_slot := c })
  | _ => entries

/-- `TypeMap::copy_entry`: reinsert an entry (collision link cleared) into the
bucket array using the current bucket count. -/
def copy_entry (tm : TypeMap) (e : TypeMapEntry) : Except String TypeMap :=
  let e := { e with collision_slot := none }
  if tm.entries.length = 0 then
    .error "attempt to calculate the remainder with a divisor of zero"
  else
    let idx := tm.bucketIdx e.type_id
    match tm.entries.getD idx none with
    | some _ =>
      match tm.entries.findIdx? Option.isNone with
      | none => .error "UB: no empty slot for collision entry"
      | some collisionIdx => do
        let lastIdx ← chainLastLoop tm.entries (tm.entries.length + 1) idx
        let entries := setCollision tm.entries lastIdx (some collisionIdx)
        .ok { tm with entries := entries.set collisionIdx (some e) }
    | none =>
      .ok { tm with entries := tm.entries.set idx (some e) }

/-- `TypeMap::resize`: allocate fresh buckets and storage (at `newBase`), copy
the used bytes, rebase every entry pointer by the base-address delta and
reinsert each old entry with `copy_entry`. -/
def resize (tm : TypeMap) (newEntryCapacity newStorageCapacity : Nat) (newBase : Int) :
    Except String TypeMap :=
  if newEntryCapacity < tm.num_entries ∨ newStorageCapacity < tm.used_storage then
    .error "TypeMap error: Called resize with new sizes that are too small to hold the current typemap data"
  else if tm.storage.length < tm.used_storage then
    .error "UB: copy_from read past the old storage"
  else
    let start : TypeMap :=
      { tm with entries := List.replicate newEntryCapacity none
                storage := tm.storage.take tm.used_storage ++
                  List.replicate (newStorageCapacity - tm.used_storage) 0
                storageBase := newBase }
    (tm.entries.filterMap id).foldlM
      (fun acc e =>
        copy_entry acc { e with ptr := newBase + (e.ptr - tm.storageBase) })
      start

/-- The non-growing part of `TypeMap::insert` — everything after the
`is_full`/storage checks.  `size`/`algn` are `size_of::<T>`/`align_of::<T>`
and `bytes` the value's bytes (`bytes.length = size`). -/
def insertNoGrow (tm : TypeMap) (tid : PubTypeId) (algn : Nat) (bytes : List Nat) :
    Except String TypeMap :=
  let idx := tm.bucketIdx tid
  match tm.entries.getD idx none with
  | some entry =>
    if entry.type_id = tid then
      -- repeat insert of the direct bucket's type: overwrite in place
      let off := (entry.ptr - tm.storageBase).toNat
      if entry.ptr - tm.storageBase < 0 ∨ tm.storage.length < off + bytes.length then
        .error "UB: overwrite outside the storage arena"
      else
        .ok { tm with storage := writeBytes tm.storage off bytes }
    else
      -- collision: link a fresh slot onto the end of the bucket's chain
      match tm.entries.findIdx? Option.isNone with
      | none => .error "UB: no empty slot for collision entry"
      | some collisionIdx => do
        let lastIdx ← chainLastLoop tm.entries (tm.entries.length + 1) idx
        let tm := { tm with entries := setCollision tm.entries lastIdx (some collisionIdx) }
        let tm := tm.alignUsed algn
        if tm.storage.length < tm.used_storage + bytes.length then
          .error "UB: value written outside the storage arena"
        else
          .ok { tm with
                entries := tm.entries.set collisionIdx (some
                  { type_id := tid
                    ptr := tm.storageBase + tm.used_storage
                    collision_slot := none })
                storage := writeBytes tm.storage tm.used_storage bytes
                num_entries := tm.num_entries + 1
                used_storage := tm.used_storage + bytes.length }
  | none =>
    let tm := tm.alignUsed algn
    if tm.storage.length < tm.used_storage + bytes.length then
      .error "UB: value written outside the storage arena"
    else
      .ok { tm with
            entries := tm.entries.set idx (some
              { type_id := tid
                ptr := tm.storageBase + tm.used_storage
                collision_slot := none })
            storage := writeBytes tm.storage tm.used_storage bytes
            num_entries := tm.num_entries + 1
            used_storage := tm.used_storage + bytes.length }

/-- `TypeMap::insert`.  The growth branch calls `resize` and retries; `fuel`
bounds that recursion and `bases` supplies the storage address each fresh
allocation gets. -/
def insert (bases : Nat → Int) :
    Nat → TypeMap → PubTypeId → Nat → List Nat → Except String TypeMap
  | 0, _, _, _, _ => .error "out of fuel in insert"
  | fuel + 1, tm, tid, algn, bytes =>
    if tm.is_full || decide (tm.unused_storage < bytes.length) then
      let newEntryCapacity := if tm.num_entries = 0 then 1 else tm.num_entries * 2
      let newStorageCapacity := if tm.storage_capacity = 0 then 1 else tm.storage_capacity * 2
      match tm.resize newEntryCapacity newStorageCapacity (bases fuel) with
      | .error e => .error e
      | .ok tm' => insert bases fuel tm' tid algn bytes
    else
      insertNoGrow tm tid algn bytes

/-- `TypeMap::clear`. -/
def clear (tm : TypeMap) : TypeMap :=
  { tm with num_entries := 0, used_storage := 0 }

/-- `impl Drop for TypeMap`: run every live entry's destructor callback. -/
def dropEvents (tm : TypeMap) : List DropEvent :=
  (tm.entries.filterMap id).map fun e => DropEvent.elemDestructor e.ptr

/-- Read the byte stored at `ptr + k` in the map's arena. -/
def readByte (tm : TypeMap) (ptr : Int) (k : Nat) : Nat :=
  tm.storage.getD ((ptr - tm.storageBase).toNat + k) 0

/-! Wellformedness of the bucket array: the reachable-state invariant the
collision-chain algorithm maintains, phrased executably. -/

/-- The entry stored at slot `i`, if the slot exists and is occupied. -/
def entryAt (entries : List (Option TypeMapEntry)) (i : Nat) : Option TypeMapEntry :=
  (entries.get? i).join

/-- Number of occupied slots. -/
def occupiedCount (entries : List (Option TypeMapEntry)) : Nat :=
  entries.countP Option.isSome

/-- Does the collision chain starting at slot `cur` reach slot `i` within
`fuel` steps? -/
def inChain (entries : List (Option TypeMapEntry)) : Nat → Nat → Nat → Bool
  | 0, _, _ => false
  | fuel + 1, cur, i =>
    if cur = i then true
    else
      match entryAt entries cur with
      | some e =>
        match e.collision_slot with
        | some j => inChain entries fuel j i
        | none => false
      | none => false

/-- Every collision link of an occupied slot points at an occupied slot. -/
def linksOkB (entries : List (Option TypeMapEntry)) : Bool :=
  (List.range entries.length).all fun i =>
    match entryAt entries i with
    | some e =>
      match e.collision_slot with
      | some j => (entryAt entries j).isSome
      | none => true
    | none => true

/-- Every collision chain ends (at a link-free slot) within `occupiedCount`
steps. -/
def termOkB (entries : List (Option TypeMapEntry)) : Bool :=
  (List.range entries.length).all fun i =>
    match entryAt entries i with
    | some _ => (chainLastLoop entries (occupiedCount entries) i).isOk
    | none => true

/-- Every occupied slot is reachable from its type's bucket. -/
def foundOkB (entries : List (Option TypeMapEntry)) : Bool :=
  (List.range entries.length).all fun i =>
    match entryAt entries i with
    | some e => inChain entries (occupiedCount entries) (e.type_id.1 % entries.length) i
    | none => true

/-- At most one entry per distinct type id. -/
def tidUniqueB (entries : List (Option TypeMapEntry)) : Bool :=
  (List.range entries.length).all fun i =>
    (List.range entries.length).all fun j =>
      match entryAt entries i, entryAt entries j with
      | some a, some b => decide (a.type_id ≠ b.type_id) || decide (i = j)
      | _, _ => true

/-- Every stored pointer points at or after the arena base. -/
def ptrGeB (tm : TypeMap) : Bool :=
  (List.range tm.entries.length).all fun i =>
    match entryAt tm.entries i with
    | some e => decide (tm.storageBase ≤ e.ptr)
    | none => true

/-- `linksOkB` in quantifier form. -/
def LinksP (entries : List (Option TypeMapEntry)) : Prop :=
  ∀ i e, entryAt entries i = some e → ∀ j, e.collision_slot = some j →
    ∃ e', entryAt entries j = some e'

/-- `termOkB` in quantifier form. -/
def TermP (entries : List (Option TypeMapEntry)) : Prop :=
  ∀ i e, entryAt entries i = some e →
    (chainLastLoop entries (occupiedCount entries) i).isOk = true

/-- `foundOkB` in quantifier form. -/
def FoundP (entries : List (Option TypeMapEntry)) : Prop :=
  ∀ i e, entryAt entries i = some e →
    inChain entries (occupiedCount entries) (e.type_id.1 % entries.length) i = true

/-- `tidUniqueB` in quantifier form. -/
def UniqueP (entries : List (Option TypeMapEntry)) : Prop :=
  ∀ i j a b, entryAt entries i = some a → entryAt entries j = some b →
    a.type_id = b.type_id → i = j

/-- The `TypeMap` invariant. -/
def Wf (tm : TypeMap) : Prop :=
  linksOkB tm.entries = true ∧ termOkB tm.entries = true ∧ foundOkB tm.entries = true ∧
    tidUniqueB tm.entries = true ∧ ptrGeB tm = true ∧
    tm.num_entries = occupiedCount tm.entries ∧ tm.used_storage ≤ tm.storage.length

instance (tm : TypeMap) : Decidable tm.Wf := by
  unfold Wf
  infer_instance

end TypeMap

/-- `UniqEntry`. -/
structure UniqEntry where
  key : Nat
  val : Int
  collision_slot : Option Nat
  deriving Repr, DecidableEq

/-- `UniqIndex` (the source's `None` variant is called `vacant` here). -/
inductive UniqIndex where
  | exact (idx : Nat)
  | collision (idx : Nat)
  | vacant (idx : Nat)
  deriving Repr, DecidableEq

/-- `Uniq`: the byte arena `data` is an `ArenaVec<u8>` (append-only and
address-stable, see the ArenaVec theorems), so it is modelled by its byte list
plus the fixed base address `dataBase`; entry `val` pointers are absolute
addresses into it. -/
structure Uniq where
  dataBase : Int
  data : List Nat
  entries : List (Option UniqEntry)
  used_entries : Nat
  deriving Repr, DecidableEq

namespace Uniq

/-- `Uniq::with_capacity`. -/
def withCapacity (cap : Nat) (base : Int) : Uniq :=
  { dataBase := base
    data := []
    entries := List.replicate cap none
    used_entries := 0 }

/-- The probe loop of `Uniq::idx_of`, following `collision_slot` links. -/
def idxOfLoop (entries : List (Option UniqEntry)) (key : Nat) :
    Nat → Nat → Except String UniqIndex
  | 0, _ => .error "infinite loop in idx_of"
  | fuel + 1, idx =>
    match entries.get? idx with
    | none => .error "index out of bounds in idx_of"
    | some none => .ok (UniqIndex.vacant idx)
    | some (some e) =>
      if e.key = key then .ok (UniqIndex.exact idx)
      else
        match e.collision_slot with
        | none => .ok (UniqIndex.collision idx)
        | some j => idxOfLoop entries key fuel j

/-- `Uniq::idx_of`. -/
def idx_of (u : Uniq) (key : Nat) : Except String UniqIndex :=
  if u.entries.length = 0 then
    .error "attempt to calculate the remainder with a divisor of zero"
  else
    idxOfLoop u.entries key (u.entries.length + 1) (key % u.entries.length)

/-- `Uniq::insert`: append the value's bytes to the arena and write the entry
at slot `idx`. -/
def insertAt (u : Uniq) (idx key : Nat) (bytes : List Nat) : Uniq :=
  let start := u.data.length
  { u with data := u.data ++ bytes
           entries := u.entries.set idx (some
             { key := key, val := u.dataBase + start, collision_slot := none })
           used_entries := u.used_entries + 1 }

/-- `entries[i].as_mut().unwrap().collision_slot = Some(c)` — the unwrap can
panic when slot `i` is vacant. -/
def setCollisionSlot (u : Uniq) (i c : Nat) : Except String Uniq :=
  match u.entries.get? i with
  | some (some e) =>
    .ok { u with entries := u.entries.set i (some { e with collision_slot := some c }) }
  | some none => .error "unwrap of None in collision link"
  | none => .error "index out of bounds in collision link"

/-- `Uniq::next_idx`: grow and rehash when every slot is used, then return the
first vacant slot.  The rehash loop reinserts each old entry (its stale
`collision_slot` is kept, exactly as in the source) and may itself call
`next_idx` recursively when a reinserted entry collides; `fuel` bounds that
recursion. -/
def next_idx : Nat → Uniq → Except String (Uniq × Nat)
  | 0, _ => .error "out of fuel in next_idx"
  | fuel + 1, u =>
    match
      (if u.used_entries = u.entries.length then
        (u.entries.filterMap id).foldlM
          (fun acc e =>
            (match idx_of acc e.key with
            | Except.error s => Except.error s
            | Except.ok (UniqIndex.vacant i) =>
              Except.ok { acc with entries := acc.entries.set i (some e) }
            | Except.ok (UniqIndex.collision c) =>
              match next_idx fuel acc with
              | Except.error s => Except.error s
              | Except.ok (acc, entryIdx) =>
                setCollisionSlot { acc with entries := acc.entries.set entryIdx (some e) }
                  c entryIdx
            | Except.ok (UniqIndex.exact _) =>
              Except.error "unreachable" : Except String Uniq))
          { u with entries := List.replicate (u.entries.length * 2) none }
      else .ok u) with
    | .error s => .error s
    | .ok u =>
      match u.entries.findIdx? Option.isNone with
      | some i => .ok (u, i)
      | none => .error "unwrap of None in next_idx"
termination_by structural fuel _ => fuel

/-- `Uniq::get` (`get_or_insert` in the spec's vocabulary): the returned
"reference" is the address of the cached value.  `defaultBytes` are the bytes
the `default` closure would produce. -/
def get (fuel : Nat) (u : Uniq) (key : Nat) (defaultBytes : List Nat) :
    Except String (Uniq × Int) :=
  match idx_of u key with
  | .error s => .error s
  | .ok (UniqIndex.exact i) =>
    match u.entries.get? i with
    | some (some e) => .ok (u, e.val)
    | _ => .error "unwrap of None in get"
  | .ok (UniqIndex.collision lastIdx) =>
    match next_idx fuel u with
    | .error s => .error s
    | .ok (u, entryIdx) =>
      match setCollisionSlot (insertAt u entryIdx key defaultBytes) lastIdx entryIdx with
      | .error s => .error s
      | .ok u =>
        match u.entries.get? entryIdx with
        | some (some e) => .ok (u, e.val)
        | _ => .error "unwrap of None in get"
  | .ok (UniqIndex.vacant i) =>
    let u := insertAt u i key defaultBytes
    match u.entries.get? i with
    | some (some e) => .ok (u, e.val)
    | _ => .error "unwrap of None in get"

end Uniq

/-! ## World message bus (`world.rs`) -/

/-- Little-endian base-256 encoding on `width` bytes (`to_ne_bytes`). -/
def encNat : Nat → Nat → List Nat
  | 0, _ => []
  | width + 1, n => n % 256 :: encNat width (n / 256)

/-- Decode a little-endian base-256 byte list (the raw pointer reads in
`apply_msgs`). -/
def decNat : List Nat → Nat
  | [] => 0
  | b :: rest => b + 256 * decNat rest

/-- The 16 `PubTypeId` bytes written by `send_msg`. -/
def encTypeId (t : PubTypeId) : List Nat :=
  encNat 8 t.1 ++ encNat 8 t.2

/-- One message frame: type id, payload length (`usize`), payload bytes. -/
def encodeFrame (t : PubTypeId) (payload : List Nat) : List Nat :=
  encTypeId t ++ encNat 8 payload.length ++ payload

/-- Frames appended by a sequence of `send_msg` calls. -/
def encodeFrames (frames : List (PubTypeId × List Nat)) : List Nat :=
  (frames.map fun f => encodeFrame f.1 f.2).flatten

/-- A registered message handler, abstracted to its effect on the message
buffer: the messages it sends (via `send_msg`) when invoked on a payload. -/
def MsgHandler := List Nat → List (PubTypeId × List Nat)

/-- The `World`'s message state (`msg_buffer` is an `ArenaVec<u8>`). -/
structure WorldMsgs where
  msgBuffer : List Nat
  deriving Repr, DecidableEq

/-- `World::send_msg`: append one frame; the message's own destructor is then
suppressed with `mem::forget`. -/
def sendMsg (w : WorldMsgs) (t : PubTypeId) (payload : List Nat) : WorldMsgs :=
  { msgBuffer := w.msgBuffer ++ encodeFrame t payload }

/-- A sequence of `send_msg` calls. -/
def sendAll (w : WorldMsgs) (frames : List (PubTypeId × List Nat)) : WorldMsgs :=
  frames.foldl (fun w f => sendMsg w f.1 f.2) w

/-- The frame-walking loop of `World::apply_msgs`.  `cur` is the rest of the
swapped-out buffer, `newBuf` the fresh `msg_buffer` that handler sends go to,
`trace` the handler invocations so far (in order, with the payload bytes each
handler received). -/
def applyLoop (env : PubTypeId → Option MsgHandler) (cur newBuf : List Nat)
    (trace : List (PubTypeId × List Nat)) :
    List Nat × List (PubTypeId × List Nat) :=
  let ty : PubTypeId := (decNat (cur.take 8), decNat ((cur.drop 8).take 8))
  let size := decNat ((cur.drop 16).take 8)
  let step :
      (List Nat × List (PubTypeId × List Nat)) :=
    match env ty with
    | some h =>
      let payload := (cur.drop 24).take size
      (newBuf ++ encodeFrames (h payload), trace ++ [(ty, payload)])
    | none => (newBuf, trace)
  if cur.length ≤ 16 + 8 + size then step
  else applyLoop env (cur.drop (16 + 8 + size)) step.1 step.2
termination_by cur.length
decreasing_by
  simp only [List.length_drop]
  omega

/-- `World::apply_msgs`: return early on an empty buffer, otherwise swap in an
empty buffer and walk the old one.  The result is the new message state plus
the ordered list of handler invocations. -/
def applyMsgs (env : PubTypeId → Option MsgHandler) (w : WorldMsgs) :
    WorldMsgs × List (PubTypeId × List Nat) :=
  if w.msgBuffer.isEmpty then (w, [])
  else
    let r := applyLoop env w.msgBuffer [] []
    ({ msgBuffer := r.1 }, r.2)

/-- The messages the registered handlers send while one drain pass processes
`frames`. -/
def sentDuringDrain (env : PubTypeId → Option MsgHandler)
    (frames : List (PubTypeId × List Nat)) : List (PubTypeId × List Nat) :=
  (frames.map fun f =>
    match env f.1 with
    | some h => h f.2
    | none => []).flatten

/-- The frames whose handlers are invoked, in send order. -/
def handledInOrder (env : PubTypeId → Option MsgHandler)
    (frames : List (PubTypeId × List Nat)) : List (PubTypeId × List Nat) :=
  frames.filter fun f => (env f.1).isSome

/-- A frame whose type id halves and payload length fit in a `u64`/`usize`. -/
def frameBounded (f : PubTypeId × List Nat) : Prop :=
  f.1.1 < 256 ^ 8 ∧ f.1.2 < 256 ^ 8 ∧ f.2.length < 256 ^ 8

instance (f : PubTypeId × List Nat) : Decidable (frameBounded f) := by
  unfold frameBounded
  infer_instance

/-! ## Concrete run definitions used by counterexamples and witnesses -/

/-- C1 run: 3 buckets; type `(0,0)` hashes to bucket 0, type `(3,0)` also
hashes to bucket 0 and lands in a collision slot; then `(3,0)` is inserted a
second time. -/
def tmDupRun : Except String TypeMap := do
  let tm ← TypeMap.insert (fun _ => 0) 5 (TypeMap.new 3 100 0) (0, 0) 1 [10]
  let tm ← TypeMap.insert (fun _ => 0) 5 tm (3, 0) 1 [20]
  TypeMap.insert (fun _ => 0) 5 tm (3, 0) 1 [30]

/-- C1 observation: entry count, byte returned by `get::<T>` and number of
live entries for the twice-inserted type. -/
def tmDupResult : Except String (Nat × Option Nat × Nat) := do
  let tm ← tmDupRun
  let p ← tm._get (3, 0)
  pure (tm.num_entries, p.map fun q => tm.readByte q 0,
    (tm.entries.filterMap id).countP fun e => e.type_id == (3, 0))

/-- A freshly created vector: one 64 KiB page-aligned reservation, nothing
committed (`with_reserved_memory_and_capacity(65536, 0)`). -/
def avFresh : ArenaVec Nat :=
  { reservedMemory := 65536, capacity := 0, len := 0, buffer := 0, data := [] }

/-- C6 run: push ten 4-byte elements (page size 4096). -/
def avShrinkRun : Except String (ArenaVec Nat) :=
  (List.range 10).foldlM (fun s i => ArenaVec.push 4 4096 s i) avFresh

/-- C6 observation: used bytes (`len * size_of`) and committed capacity after
`shrink_to(0)`. -/
def avShrinkResult : Except String (Nat × Nat) :=
  avShrinkRun.map fun s => ((ArenaVec.shrinkTo s 0).len * 4, (ArenaVec.shrinkTo s 0).capacity)

/-- C8 observation: committed capacity after `try_reserve(10000)` on a fresh
byte vector (element size 1, page size 4096). -/
def avGrowResult : Except AvError Nat :=
  (ArenaVec.tryReserve 1 4096 avFresh 10000).map fun s => s.capacity

/-- C7 run: `Uniq::with_capacity(4)` (the default), five keys that all probe
bucket 3 (forcing a growth on the fifth), then the first key again. -/
def uniqPersistRun : Except String (Uniq × Int × Int) := do
  let u := Uniq.withCapacity 4 0
  let (u, p1) ← Uniq.get 16 u 7 [0]
  let (u, _) ← Uniq.get 16 u 15 [0]
  let (u, _) ← Uniq.get 16 u 23 [0]
  let (u, _) ← Uniq.get 16 u 31 [0]
  let (u, _) ← Uniq.get 16 u 39 [0]
  let (u, p2) ← Uniq.get 16 u 7 [0]
  pure (u, p1, p2)

/-- C7 observation: the two addresses returned for key 7, the entry count, and
how many live entries carry key 7. -/
def uniqPersistResult : Except String (Int × Int × Nat × Nat) :=
  uniqPersistRun.map fun r =>
    (r.2.1, r.2.2, r.1.used_entries, (r.1.entries.filterMap id).countP fun e => e.key == 7)

/-- C2 witness state: one element already pushed. -/
def avW2 : ArenaVec Nat :=
  { reservedMemory := 65536, capacity := 4096, len := 1, buffer := 0, data := [5] }

/-- C2 witness state after pushing `[7, 8]`. -/
def avW2' : ArenaVec Nat :=
  { reservedMemory := 65536, capacity := 4096, len := 3, buffer := 0, data := [5, 7, 8] }

/-- C3 amended-claim witness: a fresh two-bucket map. -/
def tmW3 : TypeMap := TypeMap.new 2 0 0

/-- C5 witness: two entries of distinct types sharing bucket 0 through a
collision link, values `[10]` and `[20]` in the arena. -/
def tmW5 : TypeMap :=
  { entries := [some { type_id := (0, 0), ptr := 0, collision_slot := some 1 },
                some { type_id := (3, 0), ptr := 1, collision_slot := none },
                none]
    storage := [10, 20, 0]
    storageBase := 0
    used_storage := 2
    num_entries := 2 }

/-- C4 witness handler table: type `(1,0)`'s handler echoes its payload to
type `(9,9)`; type `(2,0)`'s handler sends nothing; type `(3,0)` has no
handler. -/
def msgEnvW : PubTypeId → Option MsgHandler := fun t =>
  if t = (1, 0) then some fun p => [((9, 9), p)]
  else if t = (2, 0) then some fun _ => []
  else none

/-- C4 witness frames. -/
def msgFramesW : List (PubTypeId × List Nat) :=
  [((1, 0), [5, 6]), ((3, 0), [7]), ((2, 0), [8])]

/-! ## Helper lemmas -/

theorem ensureCapacity_ok_fields {es ps : Nat} {s t : ArenaVec α} {c : Nat}
    (h : ArenaVec.ensureCapacity es ps s c = .ok t) :
    t.buffer = s.buffer ∧ t.len = s.len ∧ t.data = s.data ∧
      t.reservedMemory = s.reservedMemory := by
  unfold ArenaVec.ensureCapacity at h
  repeat split at h
  all_goals cases h
  all_goals exact ⟨rfl, rfl, rfl, rfl⟩

theorem push_ok_fields {es ps : Nat} {s s' : ArenaVec α} {v : α}
    (h : ArenaVec.push es ps s v = .ok s') :
    s'.buffer = s.buffer ∧ s'.len = s.len + 1 := by
  unfold ArenaVec.push at h
  cases he : ArenaVec.ensureCapacity es ps s (s.len + 1) with
  | error e =>
    rw [he] at h
    cases h
  | ok t =>
    rw [he] at h
    cases h
    obtain ⟨h1, h2, -, -⟩ := ensureCapacity_ok_fields he
    exact ⟨h1, by rw [h2]⟩

theorem foldl_push_ok {es ps : Nat} {vs : List α} :
    ∀ {s0 s1 : ArenaVec α}, vs.foldlM (ArenaVec.push es ps) s0 = .ok s1 →
      s1.buffer = s0.buffer ∧ s0.len ≤ s1.len := by
  induction vs with
  | nil =>
    intro s0 s1 h
    simp only [List.foldlM_nil] at h
    cases h
    exact ⟨rfl, le_refl _⟩
  | cons v vs ih =>
    intro s0 s1 h
    rw [List.foldlM_cons] at h
    cases hp : ArenaVec.push es ps s0 v with
    | error e =>
      rw [hp] at h
      cases h
    | ok s' =>
      rw [hp] at h
      obtain ⟨h1, h2⟩ := ih h
      obtain ⟨h3, h4⟩ := push_ok_fields hp
      exact ⟨h1.trans h3, by omega⟩

theorem encNat_length : ∀ (w n : Nat), (encNat w n).length = w
  | 0, _ => rfl
  | w + 1, n => by simp [encNat, encNat_length w]

theorem decNat_encNat : ∀ (w n : Nat), n < 256 ^ w → decNat (encNat w n) = n
  | 0, n, h => by
    simp only [pow_zero, Nat.lt_one_iff] at h
    simp [encNat, decNat, h]
  | w + 1, n, h => by
    have hd : n / 256 < 256 ^ w := by
      rw [Nat.div_lt_iff_lt_mul (by norm_num)]
      calc n < 256 ^ (w + 1) := h
        _ = 256 ^ w * 256 := by rw [pow_succ]
    simp only [encNat, decNat, decNat_encNat w (n / 256) hd]
    omega

theorem encodeFrame_length (t : PubTypeId) (p : List Nat) :
    (encodeFrame t p).length = 24 + p.length := by
  simp [encodeFrame, encTypeId, encNat_length]
  omega

theorem encodeFrame_assoc (t : PubTypeId) (p rest : List Nat) :
    encodeFrame t p ++ rest =
      encNat 8 t.1 ++ (encNat 8 t.2 ++ (encNat 8 p.length ++ (p ++ rest))) := by
  simp [encodeFrame, encTypeId]

theorem encodeFrames_cons (f : PubTypeId × List Nat) (fs : List (PubTypeId × List Nat)) :
    encodeFrames (f :: fs) = encodeFrame f.1 f.2 ++ encodeFrames fs := by
  simp [encodeFrames]

theorem encodeFrames_append (a b : List (PubTypeId × List Nat)) :
    encodeFrames (a ++ b) = encodeFrames a ++ encodeFrames b := by
  simp [encodeFrames]

theorem encodeFrames_eq_nil_iff (fs : List (PubTypeId × List Nat)) :
    encodeFrames fs = [] ↔ fs = [] := by
  cases fs with
  | nil => simp [encodeFrames]
  | cons f fs =>
    rw [encodeFrames_cons]
    constructor
    · intro h
      have := congrArg List.length h
      rw [List.length_append, encodeFrame_length] at this
      simp at this
    · intro h
      cases h

theorem frame_take8 (t : PubTypeId) (p rest : List Nat) :
    (encodeFrame t p ++ rest).take 8 = encNat 8 t.1 := by
  rw [encodeFrame_assoc]
  exact List.take_left' (encNat_length 8 t.1)

theorem frame_drop8 (t : PubTypeId) (p rest : List Nat) :
    (encodeFrame t p ++ rest).drop 8 =
      encNat 8 t.2 ++ (encNat 8 p.length ++ (p ++ rest)) := by
  rw [encodeFrame_assoc]
  exact List.drop_left' (encNat_length 8 t.1)

theorem frame_drop16 (t : PubTypeId) (p rest : List Nat) :
    (encodeFrame t p ++ rest).drop 16 = encNat 8 p.length ++ (p ++ rest) := by
  have : (16 : Nat) = 8 + 8 := rfl
  rw [this, ← List.drop_drop, frame_drop8]
  exact List.drop_left' (encNat_length 8 t.2)

theorem frame_drop24 (t : PubTypeId) (p rest : List Nat) :
    (encodeFrame t p ++ rest).drop 24 = p ++ rest := by
  have : (24 : Nat) = 16 + 8 := rfl
  rw [this, ← List.drop_drop, frame_drop16]
  exact List.drop_left' (encNat_length 8 p.length)

theorem applyLoop_frame_step (env : PubTypeId → Option MsgHandler) (t : PubTypeId)
    (p rest nb : List Nat) (tr : List (PubTypeId × List Nat))
    (hb : frameBounded (t, p)) :
    applyLoop env (encodeFrame t p ++ rest) nb tr =
      (if rest = [] then
        match env t with
        | some h => (nb ++ encodeFrames (h p), tr ++ [(t, p)])
        | none => (nb, tr)
      else
        match env t with
        | some h => applyLoop env rest (nb ++ encodeFrames (h p)) (tr ++ [(t, p)])
        | none => applyLoop env rest nb tr) := by
  obtain ⟨hb1, hb2, hb3⟩ := hb
  rw [applyLoop]
  have hty1 : decNat ((encodeFrame t p ++ rest).take 8) = t.1 := by
    rw [frame_take8]
    exact decNat_encNat 8 t.1 hb1
  have hty2 : decNat (((encodeFrame t p ++ rest).drop 8).take 8) = t.2 := by
    rw [frame_drop8, List.take_left' (encNat_length 8 t.2)]
    exact decNat_encNat 8 t.2 hb2
  have hsz : decNat (((encodeFrame t p ++ rest).drop 16).take 8) = p.length := by
    rw [frame_drop16, List.take_left' (encNat_length 8 p.length)]
    exact decNat_encNat 8 p.length hb3
  have hpl : ((encodeFrame t p ++ rest).drop 24).take p.length = p := by
    rw [frame_drop24]
    exact List.take_left' rfl
  have hlen : (encodeFrame t p ++ rest).length = 24 + p.length + rest.length := by
    rw [List.length_append, encodeFrame_length]
  have hdrop : (encodeFrame t p ++ rest).drop (16 + 8 + p.length) = rest := by
    have h24 : 16 + 8 + p.length = 24 + p.length := by omega
    rw [h24, ← List.drop_drop, frame_drop24]
    exact List.drop_left' rfl
  simp only [hty1, hty2, hsz, hpl, hlen, hdrop]
  by_cases hr : rest = []
  · subst hr
    have hc : 24 + p.length + List.length ([] : List Nat) ≤ 16 + 8 + p.length := by
      simp
    simp only [if_pos hc, if_pos rfl]
    cases env (t.1, t.2) <;> rfl
  · have hc : ¬(24 + p.length + rest.length ≤ 16 + 8 + p.length) := by
      have : rest.length ≠ 0 := fun h => hr (List.length_eq_zero.mp h)
      omega
    simp only [if_neg hc, if_neg hr]
    cases env (t.1, t.2) <;> rfl

theorem sentDuringDrain_cons (env : PubTypeId → Option MsgHandler)
    (f : PubTypeId × List Nat) (fs : List (PubTypeId × List Nat)) :
    sentDuringDrain env (f :: fs) =
      (match env f.1 with | some h => h f.2 | none => []) ++ sentDuringDrain env fs := by
  simp [sentDuringDrain]

theorem handledInOrder_cons (env : PubTypeId → Option MsgHandler)
    (f : PubTypeId × List Nat) (fs : List (PubTypeId × List Nat)) :
    handledInOrder env (f :: fs) =
      (if (env f.1).isSome then [f] else []) ++ handledInOrder env fs := by
  simp only [handledInOrder, List.filter_cons]
  split <;> simp

theorem applyLoop_frames (env : PubTypeId → Option MsgHandler) :
    ∀ (frames : List (PubTypeId × List Nat)) (nb : List Nat)
      (tr : List (PubTypeId × List Nat)),
      frames ≠ [] → (∀ f ∈ frames, frameBounded f) →
      applyLoop env (encodeFrames frames) nb tr =
        (nb ++ encodeFrames (sentDuringDrain env frames),
         tr ++ handledInOrder env frames) := by
  intro frames
  induction frames with
  | nil => intro _ _ h _; exact absurd rfl h
  | cons f fs ih =>
    intro nb tr _ hb
    have hbf : frameBounded (f.1, f.2) := hb f (List.mem_cons_self f fs)
    rw [encodeFrames_cons, applyLoop_frame_step env f.1 f.2 _ nb tr hbf]
    rw [sentDuringDrain_cons, handledInOrder_cons, encodeFrames_append]
    by_cases hfs : fs = []
    · subst hfs
      simp only [encodeFrames_eq_nil_iff, if_pos rfl]
      cases he : env f.1 <;>
        simp [he, sentDuringDrain, handledInOrder, encodeFrames]
    · have hnil : encodeFrames fs ≠ [] := fun h => hfs ((encodeFrames_eq_nil_iff fs).mp h)
      rw [if_neg hnil]
      cases he : env f.1 with
      | none =>
        dsimp only
        rw [ih nb tr hfs (fun g hg => hb g (List.mem_cons_of_mem f hg))]
        simp [encodeFrames]
      | some h =>
        dsimp only
        rw [ih (nb ++ encodeFrames (h f.2)) (tr ++ [(f.1, f.2)]) hfs
          (fun g hg => hb g (List.mem_cons_of_mem f hg))]
        simp [List.append_assoc]

theorem sendAll_eq (frames : List (PubTypeId × List Nat)) :
    ∀ w : WorldMsgs, sendAll w frames = ⟨w.msgBuffer ++ encodeFrames frames⟩ := by
  induction frames with
  | nil => intro w; simp [sendAll, encodeFrames]
  | cons f fs ih =>
    intro w
    simp only [sendAll] at ih ⊢
    rw [List.foldl_cons, ih]
    simp [sendMsg, encodeFrames_cons, List.append_assoc]

namespace TypeMap

theorem entryAt_eq_some {entries : List (Option TypeMapEntry)} {i : Nat} {e : TypeMapEntry} :
    entryAt entries i = some e ↔ entries.get? i = some (some e) := by
  unfold entryAt
  exact Option.join_eq_some

theorem entryAt_lt_length {entries : List (Option TypeMapEntry)} {i : Nat}
    {e : TypeMapEntry} (h : entryAt entries i = some e) : i < entries.length := by
  rw [entryAt_eq_some] at h
  exact (List.get?_eq_some.mp h).1

theorem entryAt_set_self {entries : List (Option TypeMapEntry)} {i : Nat}
    (v : Option TypeMapEntry) (h : i < entries.length) :
    entryAt (entries.set i v) i = v := by
  have hg : (entries.set i v).get? i = some v := by
    simp [List.get?_eq_getElem?, List.getElem?_set_self', List.getElem?_eq_getElem h]
  unfold entryAt
  rw [hg]
  cases v <;> rfl

theorem entryAt_set_ne {entries : List (Option TypeMapEntry)} {i k : Nat}
    (v : Option TypeMapEntry) (h : i ≠ k) :
    entryAt (entries.set i v) k = entryAt entries k := by
  unfold entryAt
  rw [List.get?_eq_getElem?, List.get?_eq_getElem?, List.getElem?_set_ne h]

theorem countP_set_vacant {entries : List (Option TypeMapEntry)} :
    ∀ {i : Nat} (e : TypeMapEntry), entries.get? i = some none →
      (entries.set i (some e)).countP Option.isSome =
        entries.countP Option.isSome + 1 := by
  induction entries with
  | nil => intro i e h; simp at h
  | cons x xs ih =>
    intro i e h
    cases i with
    | zero =>
      rw [List.get?_cons_zero, Option.some.injEq] at h
      subst h
      simp [List.countP_cons, Nat.add_comm]
    | succ i =>
      rw [List.get?_cons_succ] at h
      simp only [List.set_cons_succ, List.countP_cons, ih e h]
      omega

theorem countP_set_occupied {entries : List (Option TypeMapEntry)} :
    ∀ {i : Nat} (e w : TypeMapEntry), entries.get? i = some (some w) →
      (entries.set i (some e)).countP Option.isSome =
        entries.countP Option.isSome := by
  induction entries with
  | nil => intro i e w h; simp at h
  | cons x xs ih =>
    intro i e w h
    cases i with
    | zero =>
      rw [List.get?_cons_zero, Option.some.injEq] at h
      subst h
      simp [List.countP_cons]
    | succ i =>
      rw [List.get?_cons_succ] at h
      simp only [List.set_cons_succ, List.countP_cons, ih e w h]

theorem findIdx?_some_spec {α : Type} {p : α → Bool} :
    ∀ (l : List α) (s i : Nat), l.findIdx? p s = some i →
      s ≤ i ∧ ∃ x, l.get? (i - s) = some x ∧ p x = true := by
  intro l
  induction l with
  | nil => intro s i h; simp [List.findIdx?] at h
  | cons x xs ih =>
    intro s i h
    rw [List.findIdx?_cons] at h
    by_cases hp : p x = true
    · rw [if_pos hp] at h
      cases h
      exact ⟨le_refl _, x, by simp, hp⟩
    · rw [if_neg hp] at h
      obtain ⟨hs, y, hy, hpy⟩ := ih (s + 1) i h
      refine ⟨by omega, y, ?_, hpy⟩
      have hsub : i - s = (i - (s + 1)) + 1 := by omega
      rw [hsub, List.get?_cons_succ]
      exact hy

theorem exists_vacant {entries : List (Option TypeMapEntry)}
    (h : occupiedCount entries < entries.length) :
    ∃ cIdx, entries.findIdx? Option.isNone = some cIdx ∧
      entries.get? cIdx = some none := by
  have hpos : 0 < entries.countP Option.isNone := by
    have hlen := List.length_eq_countP_add_countP Option.isSome (l := entries)
    have hxx : entries.countP (fun a => decide ¬a.isSome = true) =
        entries.countP Option.isNone := by
      apply List.countP_congr
      intro a _
      cases a <;> simp
    rw [hxx] at hlen
    unfold occupiedCount at h
    omega
  obtain ⟨a, ha, hpa⟩ := List.countP_pos_iff.mp hpos
  have hfind : (entries.findIdx? Option.isNone).isSome := by
    rw [Option.isSome_iff_ne_none]
    intro hn
    rw [List.findIdx?_eq_none_iff] at hn
    rw [hn a ha] at hpa
    cases hpa
  obtain ⟨cIdx, hc⟩ := Option.isSome_iff_exists.mp hfind
  obtain ⟨-, x, hx, hpx⟩ := findIdx?_some_spec entries 0 cIdx hc
  rw [Nat.sub_zero] at hx
  cases x with
  | some w => simp at hpx
  | none => exact ⟨cIdx, hc, hx⟩

theorem chainLastLoop_succ (entries : List (Option TypeMapEntry)) (f i : Nat) :
    chainLastLoop entries (f + 1) i =
      (match entries.get? i with
      | none => .error "UB: chain index out of bounds"
      | some none => .error "unwrap of None in chain walk"
      | some (some e) =>
        match e.collision_slot with
        | none => .ok i
        | some j => chainLastLoop entries f j) := rfl

theorem inChain_succ (entries : List (Option TypeMapEntry)) (f cur i : Nat) :
    inChain entries (f + 1) cur i =
      (if cur = i then true
      else
        match entryAt entries cur with
        | some e =>
          match e.collision_slot with
          | some j => inChain entries f j i
          | none => false
        | none => false) := rfl

theorem getLoop_succ (tm : TypeMap) (tid : PubTypeId) (f : Nat) (node : TypeMapEntry) :
    getLoop tm tid (f + 1) node =
      (match node.collision_slot with
      | none => .ok none
      | some idx =>
        match tm.entries.get? idx with
        | none => .error "UB: collision slot out of bounds"
        | some none => .error "unwrap of None in _get"
        | some (some node') =>
          if node'.type_id = tid then .ok (some node'.ptr)
          else getLoop tm tid f node') := rfl

theorem chainLastLoop_mono (entries : List (Option TypeMapEntry)) :
    ∀ (f : Nat) {i r : Nat}, chainLastLoop entries f i = .ok r →
      chainLastLoop entries (f + 1) i = .ok r := by
  intro f
  induction f with
  | zero => intro i r h; simp [chainLastLoop] at h
  | succ f ih =>
    intro i r h
    rw [chainLastLoop_succ] at h
    rw [chainLastLoop_succ]
    cases hg : entries.get? i with
    | none => rw [hg] at h; cases h
    | some o =>
      rw [hg] at h
      cases o with
      | none => cases h
      | some e =>
        dsimp only at h ⊢
        cases hcs : e.collision_slot with
        | none => rw [hcs] at h; exact h
        | some j =>
          rw [hcs] at h
          exact ih h

theorem chainLastLoop_le (entries : List (Option TypeMapEntry)) {f f' : Nat}
    (hle : f ≤ f') {i r : Nat} (h : chainLastLoop entries f i = .ok r) :
    chainLastLoop entries f' i = .ok r := by
  induction hle with
  | refl => exact h
  | step _ ih => exact chainLastLoop_mono entries _ ih

theorem inChain_mono (entries : List (Option TypeMapEntry)) :
    ∀ (f : Nat) {s i : Nat}, inChain entries f s i = true →
      inChain entries (f + 1) s i = true := by
  intro f
  induction f with
  | zero => intro s i h; simp [inChain] at h
  | succ f ih =>
    intro s i h
    rw [inChain_succ] at h
    rw [inChain_succ]
    by_cases hsi : s = i
    · rw [if_pos hsi]
    · rw [if_neg hsi] at h ⊢
      cases hg : entryAt entries s with
      | none => rw [hg] at h; cases h
      | some e =>
        rw [hg] at h
        dsimp only at h ⊢
        cases hcs : e.collision_slot with
        | none => rw [hcs] at h; cases h
        | some j =>
          rw [hcs] at h
          exact ih h

theorem inChain_le (entries : List (Option TypeMapEntry)) {f f' : Nat}
    (hle : f ≤ f') {s i : Nat} (h : inChain entries f s i = true) :
    inChain entries f' s i = true := by
  induction hle with
  | refl => exact h
  | step _ ih => exact inChain_mono entries _ ih

theorem chainLastLoop_ok_entry {entries : List (Option TypeMapEntry)} {f i : Nat}
    (h : (chainLastLoop entries f i).isOk = true) :
    ∃ e, entryAt entries i = some e := by
  cases f with
  | zero => simp [chainLastLoop, Except.isOk, Except.toBool] at h
  | succ f =>
    rw [chainLastLoop_succ] at h
    cases hg : entries.get? i with
    | none => rw [hg] at h; simp [Except.isOk, Except.toBool] at h
    | some o =>
      rw [hg] at h
      cases o with
      | none => simp [Except.isOk, Except.toBool] at h
      | some e => exact ⟨e, entryAt_eq_some.mpr hg⟩

theorem chainLastLoop_last {entries : List (Option TypeMapEntry)} :
    ∀ {f i r : Nat}, chainLastLoop entries f i = .ok r →
      ∃ e, entryAt entries r = some e ∧ e.collision_slot = none := by
  intro f
  induction f with
  | zero => intro i r h; simp [chainLastLoop] at h
  | succ f ih =>
    intro i r h
    rw [chainLastLoop_succ] at h
    cases hg : entries.get? i with
    | none => rw [hg] at h; cases h
    | some o =>
      rw [hg] at h
      cases o with
      | none => cases h
      | some e =>
        dsimp only at h
        cases hcs : e.collision_slot with
        | none =>
          rw [hcs] at h
          cases h
          exact ⟨e, entryAt_eq_some.mpr hg, hcs⟩
        | some j =>
          rw [hcs] at h
          exact ih h

theorem linksOkB_spec {entries : List (Option TypeMapEntry)}
    (h : linksOkB entries = true) : LinksP entries := by
  intro i e he j hj
  have hi : i < entries.length := entryAt_lt_length he
  have hx := List.all_eq_true.mp h i (List.mem_range.mpr hi)
  simp only [he, hj] at hx
  exact Option.isSome_iff_exists.mp hx

theorem termOkB_spec {entries : List (Option TypeMapEntry)}
    (h : termOkB entries = true) : TermP entries := by
  intro i e he
  have hi : i < entries.length := entryAt_lt_length he
  have hx := List.all_eq_true.mp h i (List.mem_range.mpr hi)
  simp only [he] at hx
  exact hx

theorem foundOkB_spec {entries : List (Option TypeMapEntry)}
    (h : foundOkB entries = true) : FoundP entries := by
  intro i e he
  have hi : i < entries.length := entryAt_lt_length he
  have hx := List.all_eq_true.mp h i (List.mem_range.mpr hi)
  simp only [he] at hx
  exact hx

theorem tidUniqueB_spec {entries : List (Option TypeMapEntry)}
    (h : tidUniqueB entries = true) : UniqueP entries := by
  intro i j a b ha hb hab
  have hi : i < entries.length := entryAt_lt_length ha
  have hj : j < entries.length := entryAt_lt_length hb
  have hx := List.all_eq_true.mp
    (List.all_eq_true.mp h i (List.mem_range.mpr hi)) j (List.mem_range.mpr hj)
  simp only [ha, hb] at hx
  rcases Bool.or_eq_true_iff.mp hx with hx | hx
  · exact absurd hab (of_decide_eq_true hx)
  · exact of_decide_eq_true hx

theorem ptrGeB_spec {tm : TypeMap} (h : ptrGeB tm = true) :
    ∀ i e, entryAt tm.entries i = some e → tm.storageBase ≤ e.ptr := by
  intro i e he
  have hi : i < tm.entries.length := entryAt_lt_length he
  have hx := List.all_eq_true.mp h i (List.mem_range.mpr hi)
  simp only [he] at hx
  exact of_decide_eq_true hx

theorem get_eq_match (tm : TypeMap) (tid : PubTypeId) (hlen : tm.entries.length ≠ 0) :
    tm._get tid =
      (match entryAt tm.entries (tm.bucketIdx tid) with
      | none => .ok none
      | some entry =>
        if entry.type_id = tid then .ok (some entry.ptr)
        else getLoop tm tid (tm.entries.length + 1) entry) := by
  unfold _get
  rw [if_neg hlen]
  have hb : tm.bucketIdx tid < tm.entries.length :=
    Nat.mod_lt _ (Nat.pos_of_ne_zero hlen)
  cases hg : tm.entries.get? (tm.bucketIdx tid) with
  | none =>
    have := List.get?_eq_none.mp hg
    omega
  | some o =>
    have hgd : tm.entries.getD (tm.bucketIdx tid) none = o := by
      rw [List.getD_eq_getElem?_getD, ← List.get?_eq_getElem?, hg]
      rfl
    have hea : entryAt tm.entries (tm.bucketIdx tid) = o := by
      unfold entryAt
      rw [hg]
      cases o <;> rfl
    rw [hgd, hea]

theorem getLoop_reach (tm : TypeMap)
    (hL : LinksP tm.entries) (hU : UniqueP tm.entries) {i : Nat} {e : TypeMapEntry}
    (he : entryAt tm.entries i = some e) :
    ∀ (f : Nat) {f' s : Nat} {n : TypeMapEntry}, f ≤ f' →
      entryAt tm.entries s = some n → n.type_id ≠ e.type_id →
      inChain tm.entries f s i = true →
      getLoop tm e.type_id f' n = .ok (some e.ptr) := by
  intro f
  induction f with
  | zero =>
    intro f' s n _ _ _ hch
    simp [inChain] at hch
  | succ f ih =>
    intro f' s n hle hs hne hch
    rw [inChain_succ] at hch
    by_cases hsi : s = i
    · subst hsi
      rw [hs] at he
      injection he with he
      exact absurd (he ▸ rfl) hne
    · rw [if_neg hsi, hs] at hch
      dsimp only at hch
      cases hcs : n.collision_slot with
      | none => rw [hcs] at hch; cases hch
      | some j =>
        rw [hcs] at hch
        dsimp only at hch
        obtain ⟨f'', rfl⟩ : ∃ f'', f' = f'' + 1 := ⟨f' - 1, by omega⟩
        rw [getLoop_succ, hcs]
        dsimp only
        obtain ⟨e', he'⟩ := hL s n hs j hcs
        rw [entryAt_eq_some.mp he']
        dsimp only
        by_cases heq : e'.type_id = e.type_id
        · have hji : j = i := hU j i e' e he' he heq
          subst hji
          have hee : e' = e := by
            rw [he'] at he
            injection he
          rw [if_pos heq, hee]
        · rw [if_neg heq]
          exact ih (by omega) he' heq hch

theorem get_found (tm : TypeMap) (hL : LinksP tm.entries) (hU : UniqueP tm.entries)
    (hF : FoundP tm.entries) {i : Nat} {e : TypeMapEntry}
    (he : entryAt tm.entries i = some e) :
    tm._get e.type_id = .ok (some e.ptr) := by
  have hlen : tm.entries.length ≠ 0 := by
    have := entryAt_lt_length he
    omega
  rw [get_eq_match tm _ hlen]
  unfold bucketIdx
  have hch := hF i e he
  cases hbe : entryAt tm.entries (e.type_id.1 % tm.entries.length) with
  | none =>
    exfalso
    cases hocc : occupiedCount tm.entries with
    | zero =>
      rw [hocc] at hch
      simp [inChain] at hch
    | succ m =>
      rw [hocc, inChain_succ] at hch
      by_cases hbi : e.type_id.1 % tm.entries.length = i
      · rw [hbi] at hbe
        rw [hbe] at he
        cases he
      · rw [if_neg hbi] at hch
        rw [hbe] at hch
        cases hch
  | some n =>
    dsimp only
    by_cases heq : n.type_id = e.type_id
    · have hbi : e.type_id.1 % tm.entries.length = i := hU _ i n e hbe he heq
      rw [hbi] at hbe
      rw [hbe] at he
      injection he with he
      rw [if_pos heq, he]
    · rw [if_neg heq]
      have hocc : occupiedCount tm.entries ≤ tm.entries.length + 1 := by
        have := List.countP_le_length (Option.isSome) (l := tm.entries)
        unfold occupiedCount
        omega
      exact getLoop_reach tm hL hU he (occupiedCount tm.entries) hocc hbe heq hch

theorem getLoop_miss (tm : TypeMap) (tid : PubTypeId)
    (habs : ∀ k e, entryAt tm.entries k = some e → e.type_id ≠ tid) :
    ∀ (f : Nat) {f' i : Nat} {n : TypeMapEntry}, f ≤ f' →
      entryAt tm.entries i = some n →
      (chainLastLoop tm.entries f i).isOk = true →
      getLoop tm tid f' n = .ok none := by
  intro f
  induction f with
  | zero =>
    intro f' i n _ _ hch
    simp [chainLastLoop, Except.isOk, Except.toBool] at hch
  | succ f ih =>
    intro f' i n hle hi hch
    rw [chainLastLoop_succ] at hch
    rw [entryAt_eq_some.mp hi] at hch
    dsimp only at hch
    obtain ⟨f'', rfl⟩ : ∃ f'', f' = f'' + 1 := ⟨f' - 1, by omega⟩
    rw [getLoop_succ]
    cases hcs : n.collision_slot with
    | none => rfl
    | some j =>
      rw [hcs] at hch
      dsimp only at hch ⊢
      obtain ⟨nj, hnj⟩ := chainLastLoop_ok_entry hch
      rw [entryAt_eq_some.mp hnj]
      dsimp only
      rw [if_neg (habs j nj hnj)]
      exact ih (by omega) hnj hch

theorem get_absent (tm : TypeMap) (tid : PubTypeId) (hT : TermP tm.entries)
    (hlen : tm.entries.length ≠ 0)
    (habs : ∀ k e, entryAt tm.entries k = some e → e.type_id ≠ tid) :
    tm._get tid = .ok none := by
  rw [get_eq_match tm tid hlen]
  cases hbe : entryAt tm.entries (tm.bucketIdx tid) with
  | none => rfl
  | some n =>
    dsimp only
    rw [if_neg (habs _ n hbe)]
    have hocc : occupiedCount tm.entries ≤ tm.entries.length + 1 := by
      have := List.countP_le_length (Option.isSome) (l := tm.entries)
      unfold occupiedCount
      omega
    exact getLoop_miss tm tid habs (occupiedCount tm.entries) hocc hbe (hT _ n hbe)

theorem get?_set_self {α : Type} {l : List α} {i : Nat} (v : α) (h : i < l.length) :
    (l.set i v).get? i = some v := by
  simp [List.get?_eq_getElem?, List.getElem?_set_self', List.getElem?_eq_getElem h]

theorem get?_set_ne {α : Type} {l : List α} {i k : Nat} (v : α) (h : i ≠ k) :
    (l.set i v).get? k = l.get? k := by
  simp [List.get?_eq_getElem?, List.getElem?_set_ne h]

theorem entryAt_none_get? {entries : List (Option TypeMapEntry)} {i : Nat}
    (hlt : i < entries.length) (h : entryAt entries i = none) :
    entries.get? i = some none := by
  cases hg : entries.get? i with
  | none =>
    have := List.get?_eq_none.mp hg
    omega
  | some o =>
    unfold entryAt at h
    rw [hg] at h
    cases o with
    | none => rfl
    | some e => cases h

theorem getD_eq_entryAt {entries : List (Option TypeMapEntry)} {i : Nat}
    (h : i < entries.length) : entries.getD i none = entryAt entries i := by
  cases hg : entries.get? i with
  | none =>
    have := List.get?_eq_none.mp hg
    omega
  | some o =>
    rw [List.getD_eq_getElem?_getD, ← List.get?_eq_getElem?, hg]
    unfold entryAt
    rw [hg]
    cases o <;> rfl

theorem isOk_exists {ε α : Type} {x : Except ε α} (h : x.isOk = true) :
    ∃ a, x = .ok a := by
  cases x with
  | error e => simp [Except.isOk, Except.toBool] at h
  | ok a => exact ⟨a, rfl⟩

theorem chainLastLoop_set_vacant {entries : List (Option TypeMapEntry)} {idx : Nat}
    (v : Option TypeMapEntry) (hv : entries.get? idx = some none) :
    ∀ (f : Nat) {i r : Nat}, chainLastLoop entries f i = .ok r →
      chainLastLoop (entries.set idx v) f i = .ok r := by
  intro f
  induction f with
  | zero => intro i r h; simp [chainLastLoop] at h
  | succ f ih =>
    intro i r h
    rw [chainLastLoop_succ] at h ⊢
    cases hg : entries.get? i with
    | none => rw [hg] at h; cases h
    | some o =>
      rw [hg] at h
      cases o with
      | none => cases h
      | some n =>
        have hne : idx ≠ i := by
          intro hx
          rw [hx, hg] at hv
          cases hv
        rw [get?_set_ne v hne, hg]
        dsimp only at h ⊢
        cases hcs : n.collision_slot with
        | none => rw [hcs] at h; exact h
        | some j => rw [hcs] at h; exact ih h

theorem inChain_set_vacant {entries : List (Option TypeMapEntry)} {idx : Nat}
    (v : Option TypeMapEntry) (hv : entries.get? idx = some none) :
    ∀ (f : Nat) {b k : Nat}, inChain entries f b k = true →
      inChain (entries.set idx v) f b k = true := by
  intro f
  induction f with
  | zero => intro b k h; simp [inChain] at h
  | succ f ih =>
    intro b k h
    rw [inChain_succ] at h ⊢
    by_cases hbk : b = k
    · rw [if_pos hbk]
    · rw [if_neg hbk] at h ⊢
      cases hg : entryAt entries b with
      | none => rw [hg] at h; cases h
      | some n =>
        have hne : idx ≠ b := by
          intro hx
          rw [hx] at hv
          rw [entryAt_eq_some] at hg
          rw [hg] at hv
          cases hv
        rw [entryAt_set_ne v hne, hg]
        rw [hg] at h
        dsimp only at h ⊢
        cases hcs : n.collision_slot with
        | none => rw [hcs] at h; cases h
        | some j => rw [hcs] at h; exact ih h

theorem chainLastLoop_relink {entries : List (Option TypeMapEntry)}
    {lastIdx cIdx : Nat} {nL e₂ : TypeMapEntry}
    (hnl : entries.get? lastIdx = some (some nL)) (hnlcs : nL.collision_slot = none)
    (hc : entries.get? cIdx = some none) (hecs : e₂.collision_slot = none) :
    ∀ (f : Nat) {i r : Nat}, chainLastLoop entries f i = .ok r →
      chainLastLoop
        ((entries.set lastIdx (some { nL with collision_slot := some cIdx })).set
          cIdx (some e₂)) (f + 1) i =
        .ok (if r = lastIdx then cIdx else r) := by
  have hlc : lastIdx ≠ cIdx := by
    intro h
    rw [h, hc] at hnl
    cases hnl
  have hclen : cIdx < entries.length := (List.get?_eq_some.mp hc).1
  have hllen : lastIdx < entries.length := (List.get?_eq_some.mp hnl).1
  have g2l : ((entries.set lastIdx (some { nL with collision_slot := some cIdx })).set
      cIdx (some e₂)).get? lastIdx = some (some { nL with collision_slot := some cIdx }) := by
    rw [get?_set_ne _ (Ne.symm hlc)]
    exact get?_set_self _ hllen
  have g2c : ((entries.set lastIdx (some { nL with collision_slot := some cIdx })).set
      cIdx (some e₂)).get? cIdx = some (some e₂) :=
    get?_set_self _ (by rw [List.length_set]; exact hclen)
  intro f
  induction f with
  | zero => intro i r h; simp [chainLastLoop] at h
  | succ f ih =>
    intro i r h
    rw [chainLastLoop_succ] at h
    cases hg : entries.get? i with
    | none => rw [hg] at h; cases h
    | some o =>
      rw [hg] at h
      cases o with
      | none => cases h
      | some n =>
        dsimp only at h
        have hic : i ≠ cIdx := by
          intro hx
          rw [hx, hc] at hg
          cases hg
        by_cases hil : i = lastIdx
        · subst hil
          have hn : n = nL := by
            have := hg.symm.trans hnl
            injection this with this
            injection this
          subst hn
          rw [hnlcs] at h
          injection h with h
          subst h
          rw [if_pos rfl, chainLastLoop_succ, g2l]
          dsimp only
          rw [chainLastLoop_succ, g2c]
          dsimp only
          rw [hecs]
        · have g2i : ((entries.set lastIdx
              (some { nL with collision_slot := some cIdx })).set cIdx (some e₂)).get? i =
              some (some n) := by
            rw [get?_set_ne _ (Ne.symm hic), get?_set_ne _ (Ne.symm hil), hg]
          rw [chainLastLoop_succ, g2i]
          dsimp only
          cases hcs : n.collision_slot with
          | none =>
            rw [hcs] at h
            injection h with h
            subst h
            rw [if_neg hil]
          | some j =>
            rw [hcs] at h
            exact ih h

theorem inChain_relink {entries : List (Option TypeMapEntry)}
    {lastIdx cIdx : Nat} {nL e₂ : TypeMapEntry}
    (hnl : entries.get? lastIdx = some (some nL)) (hnlcs : nL.collision_slot = none)
    (hc : entries.get? cIdx = some none) :
    ∀ (f : Nat) {b k : Nat}, k ≠ cIdx → inChain entries f b k = true →
      inChain
        ((entries.set lastIdx (some { nL with collision_slot := some cIdx })).set
          cIdx (some e₂)) f b k = true := by
  intro f
  induction f with
  | zero => intro b k _ h; simp [inChain] at h
  | succ f ih =>
    intro b k hkc h
    rw [inChain_succ] at h ⊢
    by_cases hbk : b = k
    · rw [if_pos hbk]
    · rw [if_neg hbk] at h ⊢
      cases hg : entryAt entries b with
      | none => rw [hg] at h; cases h
      | some n =>
        rw [hg] at h
        dsimp only at h
        cases hcs : n.collision_slot with
        | none => rw [hcs] at h; cases h
        | some j =>
          rw [hcs] at h
          have hbl : b ≠ lastIdx := by
            intro hx
            subst hx
            rw [entryAt_eq_some] at hg
            have := hg.symm.trans hnl
            injection this with this
            injection this with this
            rw [this] at hcs
            rw [hnlcs] at hcs
            cases hcs
          have hbc : b ≠ cIdx := by
            intro hx
            subst hx
            rw [entryAt_eq_some] at hg
            rw [hg] at hc
            cases hc
          have g2b : entryAt ((entries.set lastIdx
              (some { nL with collision_slot := some cIdx })).set cIdx (some e₂)) b =
              some n := by
            rw [entryAt_set_ne _ (Ne.symm hbc), entryAt_set_ne _ (Ne.symm hbl), hg]
          rw [g2b]
          dsimp only
          rw [hcs]
          exact ih hkc h

theorem inChain_extend {entries : List (Option TypeMapEntry)}
    {lastIdx cIdx : Nat} {nL e₂ : TypeMapEntry}
    (hnl : entries.get? lastIdx = some (some nL)) (hnlcs : nL.collision_slot = none)
    (hc : entries.get? cIdx = some none) :
    ∀ (f : Nat) {i : Nat}, chainLastLoop entries f i = .ok lastIdx →
      inChain
        ((entries.set lastIdx (some { nL with collision_slot := some cIdx })).set
          cIdx (some e₂)) (f + 1) i cIdx = true := by
  have hlc : lastIdx ≠ cIdx := by
    intro h
    rw [h, hc] at hnl
    cases hnl
  have hllen : lastIdx < entries.length := (List.get?_eq_some.mp hnl).1
  have g2l : entryAt ((entries.set lastIdx
      (some { nL with collision_slot := some cIdx })).set cIdx (some e₂)) lastIdx =
      some { nL with collision_slot := some cIdx } := by
    rw [entryAt_set_ne _ (Ne.symm hlc)]
    exact entryAt_set_self _ hllen
  intro f
  induction f with
  | zero => intro i h; simp [chainLastLoop] at h
  | succ f ih =>
    intro i h
    rw [chainLastLoop_succ] at h
    cases hg : entries.get? i with
    | none => rw [hg] at h; cases h
    | some o =>
      rw [hg] at h
      cases o with
      | none => cases h
      | some n =>
        dsimp only at h
        have hic : i ≠ cIdx := by
          intro hx
          rw [hx, hc] at hg
          cases hg
        cases hcs : n.collision_slot with
        | none =>
          rw [hcs] at h
          injection h with h
          subst h
          rw [inChain_succ, if_neg hlc]
          have hn : n = nL := by
            have := hg.symm.trans hnl
            injection this with this
            injection this
          rw [g2l]
          dsimp only
          rw [inChain_succ, if_pos rfl]
        | some j =>
          rw [hcs] at h
          have hil : i ≠ lastIdx := by
            intro hx
            subst hx
            have := hg.symm.trans hnl
            injection this with this
            injection this with this
            rw [this] at hcs
            rw [hnlcs] at hcs
            cases hcs
          have g2i : entryAt ((entries.set lastIdx
              (some { nL with collision_slot := some cIdx })).set cIdx (some e₂)) i =
              some n := by
            rw [entryAt_set_ne _ (Ne.symm hic), entryAt_set_ne _ (Ne.symm hil)]
            exact entryAt_eq_some.mpr hg
          rw [inChain_succ, if_neg hic, g2i]
          dsimp only
          rw [hcs]
          exact ih h

theorem occupiedCount_pos {entries : List (Option TypeMapEntry)} {i : Nat}
    {e : TypeMapEntry} (h : entryAt entries i = some e) :
    0 < occupiedCount entries := by
  rw [entryAt_eq_some] at h
  have hmem : (some e) ∈ entries := List.get?_mem h
  unfold occupiedCount
  rw [List.countP_pos_iff]
  exact ⟨some e, hmem, rfl⟩

theorem copy_entry_ok_vacant (tm : TypeMap) (e : TypeMapEntry)
    (hocc : occupiedCount tm.entries < tm.entries.length)
    (hbe : entryAt tm.entries (e.type_id.1 % tm.entries.length) = none) :
    tm.copy_entry e =
      .ok { tm with
        entries :=
          tm.entries.set (e.type_id.1 % tm.entries.length)
            (some { e with collision_slot := none }) } ∧
      occupiedCount (tm.entries.set (e.type_id.1 % tm.entries.length)
          (some { e with collision_slot := none })) =
        occupiedCount tm.entries + 1 := by
  have hlen : tm.entries.length ≠ 0 := by omega
  have hidx : e.type_id.1 % tm.entries.length < tm.entries.length :=
    Nat.mod_lt _ (Nat.pos_of_ne_zero hlen)
  have hvac : tm.entries.get? (e.type_id.1 % tm.entries.length) = some none :=
    entryAt_none_get? hidx hbe
  constructor
  · unfold copy_entry bucketIdx
    rw [if_neg hlen]
    dsimp only
    rw [getD_eq_entryAt hidx, hbe]
  · exact countP_set_vacant _ hvac

theorem copy_entry_ok (tm : TypeMap) (e : TypeMapEntry)
    (hL : LinksP tm.entries) (hT : TermP tm.entries) (hF : FoundP tm.entries)
    (hU : UniqueP tm.entries)
    (hocc : occupiedCount tm.entries < tm.entries.length)
    (hfresh : ∀ k e', entryAt tm.entries k = some e' → e'.type_id ≠ e.type_id) :
    ∃ entries',
      tm.copy_entry e = .ok { tm with entries := entries' } ∧
      entries'.length = tm.entries.length ∧
      occupiedCount entries' = occupiedCount tm.entries + 1 ∧
      LinksP entries' ∧ TermP entries' ∧ FoundP entries' ∧ UniqueP entries' ∧
      (∀ k e₀, entryAt tm.entries k = some e₀ →
        ∃ e₁, entryAt entries' k = some e₁ ∧
          e₁.type_id = e₀.type_id ∧ e₁.ptr = e₀.ptr) ∧
      (∃ k, entryAt entries' k = some { e with collision_slot := none }) := by
  have hlen : tm.entries.length ≠ 0 := by omega
  have hidx : e.type_id.1 % tm.entries.length < tm.entries.length :=
    Nat.mod_lt _ (Nat.pos_of_ne_zero hlen)
  cases hbe : entryAt tm.entries (e.type_id.1 % tm.entries.length) with
  | none =>
    -- vacant bucket: the entry is written straight into its bucket
    obtain ⟨heval, hocc'⟩ := copy_entry_ok_vacant tm e hocc hbe
    have hvac : tm.entries.get? (e.type_id.1 % tm.entries.length) = some none :=
      entryAt_none_get? hidx hbe
    refine ⟨_, heval, List.length_set _ _ _, hocc', ?_, ?_, ?_, ?_, ?_, ?_⟩
    · -- LinksP
      intro k ek hk j hj
      by_cases hki : k = e.type_id.1 % tm.entries.length
      · subst hki
        rw [entryAt_set_self _ hidx] at hk
        injection hk with hk
        rw [← hk] at hj
        cases hj
      · rw [entryAt_set_ne _ (Ne.symm hki)] at hk
        obtain ⟨e'', he''⟩ := hL k ek hk j hj
        have hji : j ≠ e.type_id.1 % tm.entries.length := by
          intro hx
          rw [hx, hbe] at he''
          cases he''
        exact ⟨e'', by rw [entryAt_set_ne _ (Ne.symm hji)]; exact he''⟩
    · -- TermP
      intro k ek hk
      rw [hocc']
      by_cases hki : k = e.type_id.1 % tm.entries.length
      · subst hki
        rw [chainLastLoop_succ, get?_set_self _ hidx]
        rfl
      · rw [entryAt_set_ne _ (Ne.symm hki)] at hk
        obtain ⟨r, hr⟩ := isOk_exists (hT k ek hk)
        have := chainLastLoop_set_vacant
          (some { e with collision_slot := none }) hvac _ hr
        rw [chainLastLoop_mono _ _ this]
        rfl
    · -- FoundP
      intro k ek hk
      rw [hocc', List.length_set]
      by_cases hki : k = e.type_id.1 % tm.entries.length
      · subst hki
        rw [entryAt_set_self _ hidx] at hk
        injection hk with hk
        rw [← hk]
        rw [inChain_succ]
        simp
      · rw [entryAt_set_ne _ (Ne.symm hki)] at hk
        exact inChain_mono _ _ (inChain_set_vacant
          (some { e with collision_slot := none }) hvac _ (hF k ek hk))
    · -- UniqueP
      intro i' j' a b ha hb hab
      by_cases hi' : i' = e.type_id.1 % tm.entries.length <;>
        by_cases hj' : j' = e.type_id.1 % tm.entries.length
      · rw [hi', hj']
      · exfalso
        subst hi'
        rw [entryAt_set_self _ hidx] at ha
        injection ha with ha
        rw [entryAt_set_ne _ (Ne.symm hj')] at hb
        exact hfresh j' b hb (by rw [← hab, ← ha])
      · exfalso
        subst hj'
        rw [entryAt_set_self _ hidx] at hb
        injection hb with hb
        rw [entryAt_set_ne _ (Ne.symm hi')] at ha
        exact hfresh i' a ha (by rw [hab, ← hb])
      · rw [entryAt_set_ne _ (Ne.symm hi')] at ha
        rw [entryAt_set_ne _ (Ne.symm hj')] at hb
        exact hU i' j' a b ha hb hab
    · -- preservation
      intro k e₀ hk
      have hki : k ≠ e.type_id.1 % tm.entries.length := by
        intro hx
        rw [hx, hbe] at hk
        cases hk
      exact ⟨e₀, by rw [entryAt_set_ne _ (Ne.symm hki)]; exact hk, rfl, rfl⟩
    · -- the fresh entry is present
      exact ⟨_, entryAt_set_self _ hidx⟩
  | some w =>
    -- occupied bucket: link a vacant slot onto the end of the chain
    obtain ⟨lastIdx, hlast⟩ := isOk_exists (hT _ w hbe)
    obtain ⟨nL, hnL, hnLcs⟩ := chainLastLoop_last hlast
    obtain ⟨cIdx, hfind, hcvac⟩ := exists_vacant hocc
    have hnl' : tm.entries.get? lastIdx = some (some nL) := entryAt_eq_some.mp hnL
    have hlc : lastIdx ≠ cIdx := by
      intro h
      rw [h, hcvac] at hnl'
      cases hnl'
    have hclen : cIdx < tm.entries.length := (List.get?_eq_some.mp hcvac).1
    have hllen : lastIdx < tm.entries.length := (List.get?_eq_some.mp hnl').1
    have hE_c : entryAt ((tm.entries.set lastIdx
        (some { nL with collision_slot := some cIdx })).set cIdx
        (some { e with collision_slot := none })) cIdx =
        some { e with collision_slot := none } :=
      entryAt_set_self _ (by rw [List.length_set]; exact hclen)
    have hE_l : entryAt ((tm.entries.set lastIdx
        (some { nL with collision_slot := some cIdx })).set cIdx
        (some { e with collision_slot := none })) lastIdx =
        some { nL with collision_slot := some cIdx } := by
      rw [entryAt_set_ne _ (Ne.symm hlc)]
      exact entryAt_set_self _ hllen
    have hE_o : ∀ k, k ≠ cIdx → k ≠ lastIdx →
        entryAt ((tm.entries.set lastIdx
          (some { nL with collision_slot := some cIdx })).set cIdx
          (some { e with collision_slot := none })) k = entryAt tm.entries k := by
      intro k hkc hkl
      rw [entryAt_set_ne _ (Ne.symm hkc), entryAt_set_ne _ (Ne.symm hkl)]
    have hocc' : occupiedCount ((tm.entries.set lastIdx
        (some { nL with collision_slot := some cIdx })).set cIdx
        (some { e with collision_slot := none })) =
        occupiedCount tm.entries + 1 := by
      unfold occupiedCount
      rw [countP_set_vacant _ (by rw [get?_set_ne _ hlc]; exact hcvac)]
      rw [countP_set_occupied _ nL hnl']
    refine ⟨(tm.entries.set lastIdx (some { nL with collision_slot := some cIdx })).set
      cIdx (some { e with collision_slot := none }), ?_, ?_, hocc', ?_, ?_, ?_, ?_, ?_,
      ⟨cIdx, hE_c⟩⟩
    · -- evaluation of copy_entry
      unfold copy_entry bucketIdx
      rw [if_neg hlen]
      dsimp only
      rw [getD_eq_entryAt hidx, hbe, hfind]
      dsimp only
      rw [chainLastLoop_le tm.entries (by omega) hlast]
      show Except.ok _ = _
      unfold setCollision
      rw [hnl']
    · rw [List.length_set, List.length_set]
    · -- LinksP
      intro k ek hk j hj
      by_cases hkc : k = cIdx
      · subst hkc
        rw [hE_c] at hk
        injection hk with hk
        rw [← hk] at hj
        cases hj
      · by_cases hkl : k = lastIdx
        · subst hkl
          rw [hE_l] at hk
          injection hk with hk
          rw [← hk] at hj
          injection hj with hj
          exact ⟨_, by rw [← hj]; exact hE_c⟩
        · rw [hE_o k hkc hkl] at hk
          obtain ⟨e'', he''⟩ := hL k ek hk j hj
          by_cases hjl : j = lastIdx
          · exact ⟨_, by rw [hjl]; exact hE_l⟩
          · have hjc : j ≠ cIdx := by
              intro hx
              rw [hx] at he''
              rw [entryAt_eq_some] at he''
              rw [he''] at hcvac
              cases hcvac
            exact ⟨e'', by rw [hE_o j hjc hjl]; exact he''⟩
    · -- TermP
      intro k ek hk
      rw [hocc']
      by_cases hkc : k = cIdx
      · subst hkc
        rw [chainLastLoop_succ,
          get?_set_self _ (by rw [List.length_set]; exact hclen)]
        rfl
      · have hkocc : ∃ eo, entryAt tm.entries k = some eo := by
          by_cases hkl : k = lastIdx
          · exact ⟨nL, by rw [hkl]; exact hnL⟩
          · exact ⟨ek, by rw [← hE_o k hkc hkl]; exact hk⟩
        obtain ⟨eo, heo⟩ := hkocc
        obtain ⟨r, hr⟩ := isOk_exists (hT k eo heo)
        rw [chainLastLoop_relink hnl' hnLcs hcvac rfl _ hr]
        rfl
    · -- FoundP
      intro k ek hk
      rw [hocc', List.length_set, List.length_set]
      by_cases hkc : k = cIdx
      · subst hkc
        rw [hE_c] at hk
        injection hk with hk
        rw [← hk]
        exact inChain_extend hnl' hnLcs hcvac _ hlast
      · by_cases hkl : k = lastIdx
        · subst hkl
          rw [hE_l] at hk
          injection hk with hk
          have hfo := hF _ nL hnL
          rw [← hk]
          exact inChain_mono _ _
            (inChain_relink hnl' hnLcs hcvac _ (Ne.symm hlc).symm hfo)
        · rw [hE_o k hkc hkl] at hk
          have hfo := hF k ek hk
          exact inChain_mono _ _ (inChain_relink hnl' hnLcs hcvac _ hkc hfo)
    · -- UniqueP
      intro i' j' a b ha hb hab
      by_cases hi' : i' = cIdx <;> by_cases hj' : j' = cIdx
      · rw [hi', hj']
      · exfalso
        subst hi'
        rw [hE_c] at ha
        injection ha with ha
        have hb' : ∃ bo, entryAt tm.entries j' = some bo ∧ bo.type_id = b.type_id := by
          by_cases hjl : j' = lastIdx
          · subst hjl
            rw [hE_l] at hb
            injection hb with hb
            exact ⟨nL, hnL, by rw [← hb]⟩
          · rw [hE_o j' hj' hjl] at hb
            exact ⟨b, hb, rfl⟩
        obtain ⟨bo, hbo, hbt⟩ := hb'
        exact hfresh j' bo hbo (by rw [hbt, ← hab, ← ha])
      · exfalso
        subst hj'
        rw [hE_c] at hb
        injection hb with hb
        have ha' : ∃ ao, entryAt tm.entries i' = some ao ∧ ao.type_id = a.type_id := by
          by_cases hil : i' = lastIdx
          · subst hil
            rw [hE_l] at ha
            injection ha with ha
            exact ⟨nL, hnL, by rw [← ha]⟩
          · rw [hE_o i' hi' hil] at ha
            exact ⟨a, ha, rfl⟩
        obtain ⟨ao, hao, hat⟩ := ha'
        exact hfresh i' ao hao (by rw [hat, hab, ← hb])
      · have ha' : ∃ ao, entryAt tm.entries i' = some ao ∧ ao.type_id = a.type_id := by
          by_cases hil : i' = lastIdx
          · subst hil
            rw [hE_l] at ha
            injection ha with ha
            exact ⟨nL, hnL, by rw [← ha]⟩
          · rw [hE_o i' hi' hil] at ha
            exact ⟨a, ha, rfl⟩
        have hb' : ∃ bo, entryAt tm.entries j' = some bo ∧ bo.type_id = b.type_id := by
          by_cases hjl : j' = lastIdx
          · subst hjl
            rw [hE_l] at hb
            injection hb with hb
            exact ⟨nL, hnL, by rw [← hb]⟩
          · rw [hE_o j' hj' hjl] at hb
            exact ⟨b, hb, rfl⟩
        obtain ⟨ao, hao, hat⟩ := ha'
        obtain ⟨bo, hbo, hbt⟩ := hb'
        exact hU i' j' ao bo hao hbo (by rw [hat, hbt, hab])
    · -- preservation
      intro k e₀ hk
      have hkc : k ≠ cIdx := by
        intro hx
        rw [hx] at hk
        rw [entryAt_eq_some] at hk
        rw [hk] at hcvac
        cases hcvac
      by_cases hkl : k = lastIdx
      · subst hkl
        rw [hnL] at hk
        injection hk with hk
        exact ⟨{ nL with collision_slot := some cIdx }, hE_l, by rw [← hk], by rw [← hk]⟩
      · exact ⟨e₀, by rw [hE_o k hkc hkl]; exact hk, rfl, rfl⟩

theorem setCollision_length (entries : List (Option TypeMapEntry)) (i : Nat)
    (c : Option Nat) : (setCollision entries i c).length = entries.length := by
  unfold setCollision
  cases hg : entries.get? i with
  | none => rfl
  | some o =>
    cases o with
    | none => rfl
    | some el => exact List.length_set entries i _

theorem entryAt_replicate (n k : Nat) :
    entryAt (List.replicate n (none : Option TypeMapEntry)) k = none := by
  unfold entryAt
  cases hk : (List.replicate n (none : Option TypeMapEntry)).get? k with
  | none => rfl
  | some o =>
    have hm := List.get?_mem hk
    rw [List.eq_of_mem_replicate hm]
    rfl

theorem occupiedCount_replicate (n : Nat) :
    occupiedCount (List.replicate n (none : Option TypeMapEntry)) = 0 := by
  unfold occupiedCount
  rw [List.countP_eq_zero]
  intro a ha
  rw [List.eq_of_mem_replicate ha]
  simp

theorem length_filterMap_id :
    ∀ (l : List (Option TypeMapEntry)), (l.filterMap id).length = occupiedCount l := by
  intro l
  induction l with
  | nil => rfl
  | cons x xs ih =>
    cases x with
    | none => simpa [occupiedCount, List.countP_cons] using ih
    | some a =>
      simp only [occupiedCount, List.countP_cons] at ih ⊢
      simp [ih]

theorem uniqueP_pairwise {entries : List (Option TypeMapEntry)} (hU : UniqueP entries) :
    (entries.filterMap id).Pairwise (fun a b => a.type_id ≠ b.type_id) := by
  rw [List.pairwise_filterMap, List.pairwise_iff_getElem]
  intro i j hi hj hij a ha b hb hab
  have hia : entryAt entries i = some a := by
    rw [entryAt_eq_some, List.get?_eq_getElem?, List.getElem?_eq_getElem hi]
    exact congrArg some ha
  have hjb : entryAt entries j = some b := by
    rw [entryAt_eq_some, List.get?_eq_getElem?, List.getElem?_eq_getElem hj]
    exact congrArg some hb
  have := hU i j a b hia hjb hab
  omega

/-- Every entry of the map produced by one `copy_entry` call carries either the
inserted entry's type id or a type id already present beforehand. -/
theorem copy_entry_tids (tm : TypeMap) (e : TypeMapEntry) {tm' : TypeMap}
    (h : tm.copy_entry e = .ok tm') :
    ∀ k e₁, entryAt tm'.entries k = some e₁ →
      e₁.type_id = e.type_id ∨
      ∃ k₀ e₀, entryAt tm.entries k₀ = some e₀ ∧ e₁.type_id = e₀.type_id := by
  simp only [copy_entry, bucketIdx] at h
  by_cases hlen : tm.entries.length = 0
  · rw [if_pos hlen] at h
    cases h
  · rw [if_neg hlen] at h
    have hidx : e.type_id.1 % tm.entries.length < tm.entries.length :=
      Nat.mod_lt _ (Nat.pos_of_ne_zero hlen)
    cases hbd : tm.entries.getD (e.type_id.1 % tm.entries.length) none with
    | none =>
      rw [hbd] at h
      dsimp only at h
      injection h with h
      subst h
      intro k e₁ hk
      dsimp only at hk
      by_cases hki : k = e.type_id.1 % tm.entries.length
      · subst hki
        rw [entryAt_set_self _ hidx] at hk
        injection hk with hk
        left
        rw [← hk]
      · rw [entryAt_set_ne _ (Ne.symm hki)] at hk
        exact Or.inr ⟨k, e₁, hk, rfl⟩
    | some w =>
      rw [hbd] at h
      dsimp only at h
      cases hf : tm.entries.findIdx? Option.isNone with
      | none =>
        rw [hf] at h
        cases h
      | some cIdx =>
        rw [hf] at h
        dsimp only at h
        cases hcl : chainLastLoop tm.entries (tm.entries.length + 1)
            (e.type_id.1 % tm.entries.length) with
        | error s =>
          rw [hcl] at h
          have h'' : (Except.error s : Except String TypeMap) = Except.ok tm' := h
          cases h''
        | ok lastIdx =>
          rw [hcl] at h
          have h' : Except.ok
              { tm with
                entries :=
                  (setCollision tm.entries lastIdx (some cIdx)).set cIdx
                    (some { e with collision_slot := none }) } = Except.ok tm' := h
          injection h' with h'
          subst h'
          intro k e₁ hk
          dsimp only at hk
          have hclen : cIdx < tm.entries.length := by
            obtain ⟨-, xx, hxx, -⟩ := findIdx?_some_spec tm.entries 0 cIdx hf
            rw [Nat.sub_zero] at hxx
            exact (List.get?_eq_some.mp hxx).1
          by_cases hkc : k = cIdx
          · subst hkc
            rw [entryAt_set_self _
              (by rw [setCollision_length]; exact hclen)] at hk
            injection hk with hk
            left
            rw [← hk]
          · rw [entryAt_set_ne _ (Ne.symm hkc)] at hk
            unfold setCollision at hk
            cases hsl : tm.entries.get? lastIdx with
            | none =>
              rw [hsl] at hk
              exact Or.inr ⟨k, e₁, hk, rfl⟩
            | some o =>
              cases o with
              | none =>
                rw [hsl] at hk
                exact Or.inr ⟨k, e₁, hk, rfl⟩
              | some el =>
                rw [hsl] at hk
                dsimp only at hk
                by_cases hkl : k = lastIdx
                · subst hkl
                  rw [entryAt_set_self _ (List.get?_eq_some.mp hsl).1] at hk
                  injection hk with hk
                  right
                  exact ⟨k, el, entryAt_eq_some.mpr hsl, by rw [← hk]⟩
                · rw [entryAt_set_ne _ (Ne.symm hkl)] at hk
                  exact Or.inr ⟨k, e₁, hk, rfl⟩

theorem foldlM_copy_map (g : TypeMapEntry → TypeMapEntry) :
    ∀ (l : List TypeMapEntry) (acc : TypeMap),
      l.foldlM (fun a x => copy_entry a (g x)) acc =
        (l.map g).foldlM copy_entry acc := by
  intro l
  induction l with
  | nil => intro acc; rfl
  | cons x xs ih =>
    intro acc
    rw [List.map_cons, List.foldlM_cons, List.foldlM_cons]
    cases h : copy_entry acc (g x) with
    | error s => rfl
    | ok a =>
      show xs.foldlM (fun a x => copy_entry a (g x)) a = (xs.map g).foldlM copy_entry a
      exact ih a

/-- Folding `copy_entry` over a list of entries with pairwise-distinct type
ids, all fresh for the current map, succeeds whenever enough vacant buckets
remain, preserves the invariant and every already-placed entry, and places
every entry of the list. -/
theorem foldl_copy_ok :
    ∀ (l : List TypeMapEntry) (acc : TypeMap),
      l.Pairwise (fun a b => a.type_id ≠ b.type_id) →
      LinksP acc.entries → TermP acc.entries → FoundP acc.entries →
      UniqueP acc.entries →
      occupiedCount acc.entries + l.length ≤ acc.entries.length →
      (∀ k e', entryAt acc.entries k = some e' → ∀ x ∈ l, e'.type_id ≠ x.type_id) →
      ∃ entries',
        l.foldlM copy_entry acc = .ok { acc with entries := entries' } ∧
        entries'.length = acc.entries.length ∧
        occupiedCount entries' = occupiedCount acc.entries + l.length ∧
        LinksP entries' ∧ TermP entries' ∧ FoundP entries' ∧ UniqueP entries' ∧
        (∀ k e₀, entryAt acc.entries k = some e₀ →
          ∃ e₁, entryAt entries' k = some e₁ ∧
            e₁.type_id = e₀.type_id ∧ e₁.ptr = e₀.ptr) ∧
        (∀ x ∈ l, ∃ k e₁, entryAt entries' k = some e₁ ∧
          e₁.type_id = x.type_id ∧ e₁.ptr = x.ptr) := by
  intro l
  induction l with
  | nil =>
    intro acc _ hL hT hF hU _ _
    exact ⟨acc.entries, rfl, rfl, by simp, hL, hT, hF, hU,
      fun k e₀ hk => ⟨e₀, hk, rfl, rfl⟩, by simp⟩
  | cons x xs ih =>
    intro acc hpw hL hT hF hU hocc hfresh
    have hx0 : occupiedCount acc.entries < acc.entries.length := by
      simp only [List.length_cons] at hocc
      omega
    have hfx : ∀ k e', entryAt acc.entries k = some e' → e'.type_id ≠ x.type_id :=
      fun k e' hk => hfresh k e' hk x (List.mem_cons_self x xs)
    obtain ⟨es₁, heval, hlen₁, hocc₁, hL₁, hT₁, hF₁, hU₁, hpres₁, kx, hkx⟩ :=
      copy_entry_ok acc x hL hT hF hU hx0 hfx
    have htids := copy_entry_tids acc x heval
    have hhead := (List.pairwise_cons.mp hpw).1
    have hpw' := (List.pairwise_cons.mp hpw).2
    have hfresh₁ : ∀ k e', entryAt es₁ k = some e' →
        ∀ y ∈ xs, e'.type_id ≠ y.type_id := by
      intro k e' hk y hy
      rcases htids k e' hk with hnew | ⟨k₀, e₀, hk₀, hte⟩
      · rw [hnew]
        exact hhead y hy
      · rw [hte]
        exact hfresh k₀ e₀ hk₀ y (List.mem_cons_of_mem x hy)
    have hocc' : occupiedCount es₁ + xs.length ≤ es₁.length := by
      rw [hocc₁, hlen₁]
      simp only [List.length_cons] at hocc
      omega
    obtain ⟨es₂, heval₂, hlen₂, hocc₂, hL₂, hT₂, hF₂, hU₂, hpres₂, hplaced₂⟩ :=
      ih { acc with entries := es₁ } hpw' hL₁ hT₁ hF₁ hU₁ hocc' hfresh₁
    refine ⟨es₂, ?_, ?_, ?_, hL₂, hT₂, hF₂, hU₂, ?_, ?_⟩
    · rw [List.foldlM_cons, heval]
      exact heval₂
    · exact hlen₂.trans hlen₁
    · rw [hocc₂]
      show occupiedCount es₁ + xs.length = occupiedCount acc.entries + (x :: xs).length
      rw [hocc₁, List.length_cons]
      omega
    · intro k e₀ hk
      obtain ⟨e₁, hk₁, ht₁, hp₁⟩ := hpres₁ k e₀ hk
      obtain ⟨e₂, hk₂, ht₂, hp₂⟩ := hpres₂ k e₁ hk₁
      exact ⟨e₂, hk₂, ht₂.trans ht₁, hp₂.trans hp₁⟩
    · intro y hy
      rcases List.mem_cons.mp hy with rfl | hy'
      · obtain ⟨e₂, hk₂, ht₂, hp₂⟩ := hpres₂ kx _ hkx
        exact ⟨kx, e₂, hk₂, ht₂, hp₂⟩
      · exact hplaced₂ y hy'

/-- `resize` with capacities at least the current usage succeeds on a
wellformed map: the storage is the old used bytes padded with zeros at the new
base, and every old entry survives with its type id and a pointer rebased by
the base-address delta, in an again-wellformed bucket array. -/
theorem resize_spec (tm : TypeMap) (nec nsc : Nat) (newBase : Int)
    (hwf : tm.Wf) (hne : tm.num_entries ≤ nec) (hns : tm.used_storage ≤ nsc) :
    ∃ tm',
      tm.resize nec nsc newBase = .ok tm' ∧
      tm'.storageBase = newBase ∧
      tm'.storage = tm.storage.take tm.used_storage ++
        List.replicate (nsc - tm.used_storage) 0 ∧
      tm'.entries.length = nec ∧
      LinksP tm'.entries ∧ FoundP tm'.entries ∧ UniqueP tm'.entries ∧
      ∀ k e, entryAt tm.entries k = some e →
        ∃ k' e', entryAt tm'.entries k' = some e' ∧
          e'.type_id = e.type_id ∧ e'.ptr = newBase + (e.ptr - tm.storageBase) := by
  obtain ⟨hLb, hTb, hFb, hUb, hPb, hnum, hst⟩ := hwf
  have hguard1 : ¬(nec < tm.num_entries ∨ nsc < tm.used_storage) := by omega
  have hguard2 : ¬(tm.storage.length < tm.used_storage) := by omega
  have hpw : ((tm.entries.filterMap id).map
      (fun e => { e with ptr := newBase + (e.ptr - tm.storageBase) })).Pairwise
      (fun a b => a.type_id ≠ b.type_id) := by
    refine List.Pairwise.map _ ?_ (uniqueP_pairwise (tidUniqueB_spec hUb))
    intro a b hab
    exact hab
  have hL0 : LinksP (List.replicate nec (none : Option TypeMapEntry)) := by
    intro i e he j hj
    rw [entryAt_replicate] at he
    cases he
  have hT0 : TermP (List.replicate nec (none : Option TypeMapEntry)) := by
    intro i e he
    rw [entryAt_replicate] at he
    cases he
  have hF0 : FoundP (List.replicate nec (none : Option TypeMapEntry)) := by
    intro i e he
    rw [entryAt_replicate] at he
    cases he
  have hU0 : UniqueP (List.replicate nec (none : Option TypeMapEntry)) := by
    intro i j a b ha hb hab
    rw [entryAt_replicate] at ha
    cases ha
  have hlenl : ((tm.entries.filterMap id).map
      (fun e => { e with ptr := newBase + (e.ptr - tm.storageBase) })).length =
      tm.num_entries := by
    rw [List.length_map, length_filterMap_id, hnum]
  have hocc0 : occupiedCount (List.replicate nec (none : Option TypeMapEntry)) +
      ((tm.entries.filterMap id).map
        (fun e => { e with ptr := newBase + (e.ptr - tm.storageBase) })).length ≤
      (List.replicate nec (none : Option TypeMapEntry)).length := by
    rw [occupiedCount_replicate, hlenl, List.length_replicate]
    omega
  have hfresh0 : ∀ k e', entryAt (List.replicate nec (none : Option TypeMapEntry)) k =
      some e' → ∀ x ∈ (tm.entries.filterMap id).map
        (fun e => { e with ptr := newBase + (e.ptr - tm.storageBase) }),
      e'.type_id ≠ x.type_id := by
    intro k e' hk
    rw [entryAt_replicate] at hk
    cases hk
  obtain ⟨es', hevalf, hlenf, hoccf, hLf, hTf, hFf, hUf, hpresf, hplacedf⟩ :=
    foldl_copy_ok
      ((tm.entries.filterMap id).map
        (fun e => { e with ptr := newBase + (e.ptr - tm.storageBase) }))
      { tm with
        entries := List.replicate nec none
        storage := tm.storage.take tm.used_storage ++
          List.replicate (nsc - tm.used_storage) 0
        storageBase := newBase }
      hpw hL0 hT0 hF0 hU0 hocc0 hfresh0
  have heval : tm.resize nec nsc newBase = .ok
      { tm with
        entries := es'
        storage := tm.storage.take tm.used_storage ++
          List.replicate (nsc - tm.used_storage) 0
        storageBase := newBase } := by
    unfold resize
    rw [if_neg hguard1, if_neg hguard2]
    exact (foldlM_copy_map
      (fun e => { e with ptr := newBase + (e.ptr - tm.storageBase) })
      (tm.entries.filterMap id) _).trans hevalf
  refine ⟨_, heval, rfl, rfl, hlenf.trans (List.length_replicate _ _), hLf, hFf, hUf, ?_⟩
  intro k e hk
  have hmem : ({ e with ptr := newBase + (e.ptr - tm.storageBase) } : TypeMapEntry) ∈
      (tm.entries.filterMap id).map
        (fun e => { e with ptr := newBase + (e.ptr - tm.storageBase) }) := by
    apply List.mem_map_of_mem
    rw [List.mem_filterMap]
    exact ⟨some e, List.get?_mem (entryAt_eq_some.mp hk), rfl⟩
  obtain ⟨k', e', hk', ht', hp'⟩ := hplacedf _ hmem
  exact ⟨k', e', hk', ht', hp'⟩

theorem getD_take_append {st rest : List Nat} {u off d : Nat}
    (h1 : off < u) (h2 : u ≤ st.length) :
    (st.take u ++ rest).getD off d = st.getD off d := by
  rw [List.getD_eq_getElem?_getD, List.getD_eq_getElem?_getD]
  have hlt : off < (st.take u).length := by
    rw [List.length_take]
    omega
  rw [List.getElem?_append, if_pos hlt, List.getElem?_take, if_pos h1]

end TypeMap

/-! ## Claim theorems -/

/-- Claim C1 (code bug): inserting a type whose existing entry sits in a
collision-chain slot does not overwrite it.  After inserting type `(0,0)` and
then type `(3,0)` twice into a 3-bucket map (both types hash to bucket 0), the
entry count is 3 (the claim requires 2), two live entries carry type `(3,0)`,
and `get` returns the first inserted value `20`, not the most recent `30`. -/
theorem c1_typemap_chain_overwrite_bug : tmDupResult = .ok (3, some 20, 2) := by rfl

/-- Claim C3 (counterexample): `get::<T>()` on `TypeMap::new(0, 0)` does not
return `None` — the bucket-index computation takes a remainder by the bucket
count, which is zero, so the lookup panics. -/
theorem c3_zero_bucket_get_panics :
    (TypeMap.new 0 0 0)._get (1, 2) =
      .error "attempt to calculate the remainder with a divisor of zero" := by rfl

/-- Claim C3 (amended): on any wellformed map with at least one bucket,
looking up a type that was never inserted returns `None` and does not
panic. -/
theorem c3_amended_absent_lookup (tm : TypeMap) (tid : PubTypeId) (hwf : tm.Wf)
    (hlen : 0 < tm.entries.length)
    (habs : ∀ k < tm.entries.length,
      (TypeMap.entryAt tm.entries k).map TypeMapEntry.type_id ≠ some tid) :
    tm._get tid = .ok none := by
  obtain ⟨-, hT, -, -, -, -, -⟩ := hwf
  apply TypeMap.get_absent tm tid (TypeMap.termOkB_spec hT) (by omega)
  intro k e he
  have hk := habs k (TypeMap.entryAt_lt_length he)
  rw [he] at hk
  simpa using hk

/-- Claim C3 witness for the amended theorem: a fresh two-bucket map and a
type id that was never inserted. -/
theorem c3_amended_witness :
    (tmW3.Wf ∧ 0 < tmW3.entries.length ∧
      (∀ k < tmW3.entries.length,
        (TypeMap.entryAt tmW3.entries k).map TypeMapEntry.type_id ≠ some (7, 7))) ∧
      tmW3._get (7, 7) = .ok none :=
  ⟨⟨by decide, by decide, by decide⟩,
    c3_amended_absent_lookup tmW3 (7, 7) (by decide) (by decide) (by decide)⟩

/-- Claim C4: draining after a sequence of sends invokes the registered
handlers exactly on the sent frames, in send order (frames without a handler
are skipped), and every message sent by a handler during the drain ends up in
the fresh buffer for the next drain instead of being processed by this one. -/
theorem c4_msg_order_and_deferral (env : PubTypeId → Option MsgHandler)
    (frames : List (PubTypeId × List Nat)) (hb : ∀ f ∈ frames, frameBounded f) :
    applyMsgs env (sendAll ⟨[]⟩ frames) =
      ({ msgBuffer := encodeFrames (sentDuringDrain env frames) },
        handledInOrder env frames) := by
  rw [sendAll_eq]
  simp only [List.nil_append]
  rcases frames with _ | ⟨f, fs⟩
  · simp [applyMsgs, encodeFrames, sentDuringDrain, handledInOrder]
  · have hne : encodeFrames (f :: fs) ≠ [] := by
      rw [Ne, encodeFrames_eq_nil_iff]
      simp
    have hemp : ¬((encodeFrames (f :: fs)).isEmpty = true) := by
      simpa [List.isEmpty_iff] using hne
    simp only [applyMsgs, if_neg hemp]
    rw [applyLoop_frames env (f :: fs) [] [] (by simp) hb]
    simp

/-- Claim C4 witness: messages of types `(1,0)`, `(3,0)`, `(2,0)` with
handlers registered for `(1,0)` (which sends one message during the drain) and
`(2,0)`. -/
theorem c4_msg_order_witness :
    (∀ f ∈ msgFramesW, frameBounded f) ∧
      applyMsgs msgEnvW (sendAll ⟨[]⟩ msgFramesW) =
        ({ msgBuffer := encodeFrames (sentDuringDrain msgEnvW msgFramesW) },
          handledInOrder msgEnvW msgFramesW) :=
  ⟨by decide, c4_msg_order_and_deferral msgEnvW msgFramesW (by decide)⟩

/-- Claim C6 (code bug): after pushing ten 4-byte elements (40 used bytes,
4096 committed bytes), `shrink_to(0)` clamps the committed byte count to the
*element count* 10, so `element-count * sizeof(element) ≤ committed-byte-count`
fails (40 > 10). -/
theorem c6_shrink_to_breaks_capacity_invariant :
    avShrinkResult = .ok (40, 10) ∧ ¬(40 ≤ 10) :=
  ⟨by rfl, by decide⟩

/-- Claim C7 (code bug): with bucket capacity 4, keys 7, 15, 23, 31 fill the
map through one collision chain; getting key 39 grows the bucket array, and
the post-growth code links the chain through a stale pre-growth index, cutting
key 7's entry out of its chain.  A second `get` of key 7 then misses the
existing entry and inserts a fresh default: it returns address 5 instead of
the original address 0, and the map ends with 6 entries, two of them keyed
7. -/
theorem c7_uniq_growth_loses_entry :
    uniqPersistResult = .ok (0, 5, 6, 2) ∧ (0 : Int) ≠ 5 :=
  ⟨by rfl, by decide⟩

/-- Claim C8 (counterexample): `try_reserve(10000)` on a fresh byte vector
(64 KiB reserved, nothing committed, page size 4096) performs one growth step
committing a single page and returns success with capacity 4096 — it does not
fail even though the requested 10000 bytes are still not available. -/
theorem c8_growth_step_leaves_request_unsatisfied :
    ArenaVec.withReservedMemoryAndCapacity 4096 65536 0 0 = .ok avFresh ∧
      avGrowResult = .ok 4096 ∧ 4096 < 10000 :=
  ⟨by rfl, by rfl, by decide⟩

/-- Claim C8 (amended): when growth is needed, one growth step commits exactly
`growthAmount` additional bytes; the step fails — an abort in `ensure_capacity`
and an error value in `try_ensure_capacity`, the two APIs agreeing — precisely
when the used bytes plus that aligned growth exceed the reservation, and
otherwise succeeds whether or not the requested capacity was reached. -/
theorem c8_amended_single_growth_step (es ps : Nat) (s : ArenaVec α) (c : Nat)
    (h : s.capacity < c) :
    (ArenaVec.tryEnsureCapacity es ps s c = .error AvError.outOfMemoryAddresses ↔
      s.reservedMemory < es * s.len + ArenaVec.growthAmount es ps s) ∧
      (∀ s', ArenaVec.tryEnsureCapacity es ps s c = .ok s' →
        s' = { s with capacity := s.capacity + ArenaVec.growthAmount es ps s }) ∧
      ArenaVec.ensureCapacity es ps s c =
        (ArenaVec.tryEnsureCapacity es ps s c).mapError
          fun _ => "ArenaVec needed to grow, but ran out of reserved memory" := by
  have hc : c > s.capacity := h
  by_cases hg : es * s.len + ArenaVec.growthAmount es ps s > s.reservedMemory
  · refine ⟨?_, ?_, ?_⟩
    · simp [ArenaVec.tryEnsureCapacity, hc, hg]
    · intro s' hs'
      simp [ArenaVec.tryEnsureCapacity, hc, hg] at hs'
    · simp [ArenaVec.ensureCapacity, ArenaVec.tryEnsureCapacity, hc, hg, Except.mapError]
  · refine ⟨?_, ?_, ?_⟩
    · simp [ArenaVec.tryEnsureCapacity, hc, hg]
    · intro s' hs'
      simp [ArenaVec.tryEnsureCapacity, hc, hg] at hs'
      exact hs'.symm
    · simp [ArenaVec.ensureCapacity, ArenaVec.tryEnsureCapacity, hc, hg, Except.mapError]

/-- Claim C8 witness for the amended theorem: a fresh byte vector asked for
10000 bytes grows by one 4096-byte page. -/
theorem c8_amended_witness :
    (avFresh.capacity < 10000) ∧
      ((ArenaVec.tryEnsureCapacity 1 4096 avFresh 10000 = .error AvError.outOfMemoryAddresses ↔
        avFresh.reservedMemory < 1 * avFresh.len + ArenaVec.growthAmount 1 4096 avFresh) ∧
        (∀ s', ArenaVec.tryEnsureCapacity 1 4096 avFresh 10000 = .ok s' →
          s' = { avFresh with capacity := avFresh.capacity + ArenaVec.growthAmount 1 4096 avFresh }) ∧
        ArenaVec.ensureCapacity 1 4096 avFresh 10000 =
          (ArenaVec.tryEnsureCapacity 1 4096 avFresh 10000).mapError
            fun _ => "ArenaVec needed to grow, but ran out of reserved memory") :=
  ⟨by decide, c8_amended_single_growth_step 1 4096 avFresh 10000 (by decide)⟩

/-- Claim C9 (counterexample): `insert` at index 5 on an empty vector panics
with "Index out of bounds" instead of returning an absent result. -/
theorem c9_insert_out_of_bounds_panics :
    ArenaVec.insert 4 4096 avFresh 5 7 = .error "Index out of bounds" := by rfl

/-- Claim C9 (amended): for an out-of-bounds index, `get`, `get_mut` and
`remove` return an absent result and leave the vector unchanged, and the
fallible `try_insert`/`try_split_off` return error values; but `insert`,
`split_off` (for indices past the length) and `swap_remove` (for indices at or
past the length) panic. -/
theorem c9_amended_out_of_bounds_behaviour (es ps : Nat) [Inhabited α]
    (s : ArenaVec α) (idx : Nat) (v : α) (nb : Nat) (h : s.len ≤ idx) :
    ArenaVec.get es s idx = none ∧ ArenaVec.getMut es s idx = none ∧
      ArenaVec.remove s idx = (none, s) ∧
      (s.len < idx →
        ArenaVec.insert es ps s idx v = .error "Index out of bounds" ∧
        ArenaVec.tryInsert es ps s idx v = .error AvError.indexOutOfBounds ∧
        ArenaVec.splitOff ps s idx nb = .error "Index out of bounds" ∧
        ArenaVec.trySplitOff ps s idx nb = .error AvError.indexOutOfBounds) ∧
      ArenaVec.swapRemove s idx = .error "Index out of bounds" := by
  refine ⟨?_, ?_, ?_, ?_, ?_⟩
  · simp [ArenaVec.get, Nat.not_lt.mpr h]
  · simp [ArenaVec.getMut, Nat.not_lt.mpr h]
  · simp [ArenaVec.remove, Nat.not_lt.mpr h]
  · intro hlt
    refine ⟨?_, ?_, ?_, ?_⟩
    · simp [ArenaVec.insert, Nat.ne_of_gt hlt, hlt]
    · simp [ArenaVec.tryInsert, Nat.ne_of_gt hlt, hlt]
    · simp [ArenaVec.splitOff, hlt]
    · simp [ArenaVec.trySplitOff, hlt]
  · simp [ArenaVec.swapRemove, Nat.le_of_lt, h]

/-- Claim C9 witness for the amended theorem, at index 5 of a one-element
vector. -/
theorem c9_amended_witness :
    (avW2.len ≤ 5) ∧
      (ArenaVec.get 4 avW2 5 = none ∧ ArenaVec.getMut 4 avW2 5 = none ∧
        ArenaVec.remove avW2 5 = (none, avW2) ∧
        (avW2.len < 5 →
          ArenaVec.insert 4 4096 avW2 5 0 = .error "Index out of bounds" ∧
          ArenaVec.tryInsert 4 4096 avW2 5 0 = .error AvError.indexOutOfBounds ∧
          ArenaVec.splitOff 4096 avW2 5 99 = .error "Index out of bounds" ∧
          ArenaVec.trySplitOff 4096 avW2 5 99 = .error AvError.indexOutOfBounds) ∧
        ArenaVec.swapRemove avW2 5 = .error "Index out of bounds") :=
  ⟨by decide, c9_amended_out_of_bounds_behaviour 4 4096 avW2 5 0 99 (by decide)⟩

/-- Claim C10: `clear` only resets the element count (capacity, reservation,
base address and all stored bytes are untouched), and dropping the vector only
decommits and releases the reservation; no element destructor event occurs in
either. -/
theorem c10_clear_and_drop_skip_destructors (s : ArenaVec α) :
    ArenaVec.clear s = { s with len := 0 } ∧
      ArenaVec.dropEvents s =
        [DropEvent.decommit s.buffer s.capacity,
         DropEvent.dereserve s.buffer s.reservedMemory] ∧
      ∀ ev ∈ ArenaVec.dropEvents s, ∀ p, ev ≠ DropEvent.elemDestructor p := by
  refine ⟨rfl, rfl, ?_⟩
  intro ev hev p
  simp only [ArenaVec.dropEvents, List.mem_cons, List.mem_singleton] at hev
  rcases hev with h | h | h
  · subst h; intro hc; cases hc
  · subst h; intro hc; cases hc
  · cases h

/-- Claim C2: for any sequence of `push` calls that stays within the
reservation (i.e. none of them panic), the base address field is unchanged and
the address `get(i)` returns for an already-written index is unchanged. -/
theorem c2_address_stability (es ps : Nat) (s0 : ArenaVec α) (vs : List α)
    (s1 : ArenaVec α) (h : vs.foldlM (ArenaVec.push es ps) s0 = .ok s1) :
    s1.buffer = s0.buffer ∧
      ∀ i < s0.len, ArenaVec.get es s1 i = ArenaVec.get es s0 i := by
  obtain ⟨hb, hl⟩ := foldl_push_ok h
  refine ⟨hb, fun i hi => ?_⟩
  have hi' : i < s1.len := lt_of_lt_of_le hi hl
  simp [ArenaVec.get, hi, hi', hb]

/-- Claim C2 witness: pushing `[7, 8]` onto a one-element vector. -/
theorem c2_address_stability_witness :
    ([7, 8].foldlM (ArenaVec.push 4 4096) avW2 = .ok avW2') ∧
      (avW2'.buffer = avW2.buffer ∧
        ∀ i < avW2.len, ArenaVec.get 4 avW2' i = ArenaVec.get 4 avW2 i) :=
  ⟨by rfl, c2_address_stability 4 4096 avW2 [7, 8] avW2' (by rfl)⟩

/-- Claim C5: on a wellformed map, a resize to capacities that hold the
current entries and used bytes succeeds, and every previously inserted value
stays retrievable: `get` under the original type returns the old location
rebased by the base-address delta, and the bytes stored there are
unmodified. -/
theorem c5_resize_round_trip (tm : TypeMap) (nec nsc : Nat) (newBase : Int)
    (hwf : tm.Wf) (hne : tm.num_entries ≤ nec) (hns : tm.used_storage ≤ nsc) :
    ∃ tm', tm.resize nec nsc newBase = .ok tm' ∧
      ∀ k e, TypeMap.entryAt tm.entries k = some e →
        tm'._get e.type_id = .ok (some (newBase + (e.ptr - tm.storageBase))) ∧
        ∀ j, (e.ptr - tm.storageBase).toNat + j < tm.used_storage →
          tm'.readByte (newBase + (e.ptr - tm.storageBase)) j =
            tm.readByte e.ptr j := by
  have hused := hwf.2.2.2.2.2.2
  obtain ⟨tm', heval, hsb, hstg, hlen, hLf, hFf, hUf, hret⟩ :=
    TypeMap.resize_spec tm nec nsc newBase hwf hne hns
  refine ⟨tm', heval, ?_⟩
  intro k e hk
  obtain ⟨k', e', hk', ht', hp'⟩ := hret k e hk
  constructor
  · have hg := TypeMap.get_found tm' hLf hUf hFf hk'
    rw [ht', hp'] at hg
    exact hg
  · intro j hj
    unfold TypeMap.readByte
    rw [hsb, hstg]
    have hdelta : newBase + (e.ptr - tm.storageBase) - newBase =
        e.ptr - tm.storageBase := by omega
    rw [hdelta]
    exact TypeMap.getD_take_append hj hused

/-- Claim C5 witness: resizing the two-entry chained map `tmW5` from 3 buckets
and 3 storage bytes to 4 buckets and 6 storage bytes at new base address
100. -/
theorem c5_resize_round_trip_witness :
    (tmW5.Wf ∧ tmW5.num_entries ≤ 4 ∧ tmW5.used_storage ≤ 6) ∧
      (∃ tm', tmW5.resize 4 6 100 = .ok tm' ∧
        ∀ k e, TypeMap.entryAt tmW5.entries k = some e →
          tm'._get e.type_id = .ok (some (100 + (e.ptr - tmW5.storageBase))) ∧
          ∀ j, (e.ptr - tmW5.storageBase).toNat + j < tmW5.used_storage →
            tm'.readByte (100 + (e.ptr - tmW5.storageBase)) j =
              tmW5.readByte e.ptr j) :=
  ⟨⟨by decide, by decide, by decide⟩,
    c5_resize_round_trip tmW5 4 6 100 (by decide) (by decide) (by decide)⟩

end Scaffolding
